import Mathlib

/-!
Formal model of the bbh-server relay server.

Definitions are a shallow embedding of `src/server2.py` (the later, complete
revision of the server); the `SlotAllocator` class is textually identical in
`src/server.py`.  Python dictionaries are modelled as insertion-ordered
association lists, Python sets of account ids as duplicate-free lists, the
slot free pool as a `Finset ℕ`, and wall-clock time as an `Int` parameter
(`time.time()` truncated by `int(...)`).  Socket writes are modelled as an
output list; exceptions that the read loop catches and discards are modelled
by the branch leaving the state unchanged at the point the exception is
raised.
-/

/-- The reserved packet terminator byte (`"\x00"`). -/
def nulChar : Char := Char.ofNat 0

/-- The `"\x01"` padding byte used by `fmt_name_20`. -/
def sohChar : Char := Char.ofNat 1

/-- The terminator as a one-character string. -/
def nulStr : String := String.singleton nulChar

/-! ### Python dict as insertion-ordered association list -/

/-- `d[k]` / `d.get(k)`: the binding of `k`, if any. -/
def mapLookup {α : Type} (k : String) : List (String × α) → Option α
  | [] => none
  | p :: m => if p.1 = k then some p.2 else mapLookup k m

/-- `d[k] = v`: replace in place if the key exists, else append (Python dicts
keep insertion order). -/
def mapInsert {α : Type} (k : String) (v : α) : List (String × α) → List (String × α)
  | [] => [(k, v)]
  | p :: m => if p.1 = k then (k, v) :: m else p :: mapInsert k v m

/-- `del d[k]` / `d.pop(k, None)`: drop the binding. -/
def mapErase {α : Type} (k : String) : List (String × α) → List (String × α)
  | [] => []
  | p :: m => if p.1 = k then mapErase k m else p :: mapErase k m

theorem mapLookup_insert_self {α : Type} (k : String) (v : α)
    (m : List (String × α)) : mapLookup k (mapInsert k v m) = some v := by
  induction m with
  | nil => simp [mapInsert, mapLookup]
  | cons p m ih =>
    by_cases hp : p.1 = k
    · simp [mapInsert, mapLookup, hp]
    · simp [mapInsert, mapLookup, hp, ih]

theorem mapLookup_insert_ne {α : Type} (k k' : String) (v : α)
    (m : List (String × α)) (h : k' ≠ k) :
    mapLookup k' (mapInsert k v m) = mapLookup k' m := by
  have hk : ¬ (k = k') := fun hh => h hh.symm
  induction m with
  | nil => simp [mapInsert, mapLookup, hk]
  | cons p m ih =>
    by_cases hp : p.1 = k
    · have hp' : ¬ p.1 = k' := by rw [hp]; exact hk
      simp [mapInsert, mapLookup, hp, hp', hk]
    · by_cases hq : p.1 = k'
      · simp [mapInsert, mapLookup, hp, hq, h]
      · simp [mapInsert, mapLookup, hp, hq, ih]

theorem mapLookup_erase_self {α : Type} (k : String) (m : List (String × α)) :
    mapLookup k (mapErase k m) = none := by
  induction m with
  | nil => simp [mapErase, mapLookup]
  | cons p m ih =>
    by_cases hp : p.1 = k
    · simp [mapErase, hp, ih]
    · simp [mapErase, mapLookup, hp, ih]

theorem mapLookup_erase_ne {α : Type} (k k' : String) (m : List (String × α))
    (h : k' ≠ k) : mapLookup k' (mapErase k m) = mapLookup k' m := by
  have hk : ¬ (k = k') := fun hh => h hh.symm
  induction m with
  | nil => simp [mapErase]
  | cons p m ih =>
    by_cases hp : p.1 = k
    · have hp' : ¬ p.1 = k' := by rw [hp]; exact hk
      simp [mapErase, mapLookup, hp, hp', hk, ih]
    · by_cases hq : p.1 = k'
      · simp [mapErase, mapLookup, hp, hq, h]
      · simp [mapErase, mapLookup, hp, hq, ih]

/-- Members of `mapInsert` are the new binding or an untouched old binding. -/
theorem mem_mapInsert {α : Type} {k : String} {v : α} {m : List (String × α)}
    {p : String × α} (h : p ∈ mapInsert k v m) : p = (k, v) ∨ p ∈ m := by
  induction m with
  | nil => simpa [mapInsert] using h
  | cons q m ih =>
    by_cases hq : q.1 = k
    · simp only [mapInsert, if_pos hq] at h
      rcases List.mem_cons.1 h with h1 | h1
      · exact Or.inl h1
      · exact Or.inr (List.mem_cons_of_mem _ h1)
    · simp only [mapInsert, if_neg hq] at h
      rcases List.mem_cons.1 h with h1 | h1
      · exact Or.inr (h1 ▸ List.mem_cons_self _ _)
      · rcases ih h1 with h2 | h2
        · exact Or.inl h2
        · exact Or.inr (List.mem_cons_of_mem _ h2)

theorem mem_mapErase {α : Type} {k : String} {m : List (String × α)}
    {p : String × α} (h : p ∈ mapErase k m) : p ∈ m := by
  induction m with
  | nil => simpa [mapErase] using h
  | cons q m ih =>
    by_cases hq : q.1 = k
    · simp only [mapErase, if_pos hq] at h
      exact List.mem_cons_of_mem _ (ih h)
    · simp only [mapErase, if_neg hq] at h
      rcases List.mem_cons.1 h with h1 | h1
      · exact h1 ▸ List.mem_cons_self _ _
      · exact List.mem_cons_of_mem _ (ih h1)

theorem mapLookup_some_mem {α : Type} {k : String} {m : List (String × α)}
    {v : α} (h : mapLookup k m = some v) : (k, v) ∈ m := by
  induction m with
  | nil => simp [mapLookup] at h
  | cons p m ih =>
    by_cases hp : p.1 = k
    · simp only [mapLookup, if_pos hp] at h
      obtain ⟨p1, p2⟩ := p
      simp only [Option.some.injEq] at h
      simp only at hp
      subst hp
      subst h
      exact List.mem_cons_self _ _
    · simp only [mapLookup, if_neg hp] at h
      exact List.mem_cons_of_mem _ (ih h)

/-! ### SlotAllocator (src/server2.py lines 35-49, src/server.py lines 244-259)

```python
class SlotAllocator:
    def __init__(self):
        self.free = set(range(1, 1000))
        self.used = {}  # account_id -> slot

    def allocate(self, account_id: str) -> int:
        slot = min(self.free)
        self.free.remove(slot)
        self.used[account_id] = slot
        return slot

    def release(self, account_id: str):
        slot = self.used.pop(account_id, None)
        if slot is not None:
            self.free.add(slot)
```

`min` of an empty set raises `ValueError` before any mutation; `allocate`
therefore returns `none` on an exhausted pool, leaving the allocator intact.
-/

structure SlotAllocator where
  free : Finset ℕ
  used : List (String × ℕ)
deriving DecidableEq

def SlotAllocator.allocate (A : SlotAllocator) (accountId : String) :
    Option (ℕ × SlotAllocator) :=
  if h : A.free.Nonempty then
    let slot := A.free.min' h
    some (slot, ⟨A.free.erase slot, mapInsert accountId slot A.used⟩)
  else none

def SlotAllocator.release (A : SlotAllocator) (accountId : String) :
    SlotAllocator :=
  match mapLookup accountId A.used with
  | some slot => ⟨insert slot A.free, mapErase accountId A.used⟩
  | none => A

/-- `set(range(1, 1000))` -/
def initSlots : SlotAllocator := ⟨Finset.Icc 1 999, []⟩

theorem allocate_eq_some {A : SlotAllocator} {acc : String} {s : ℕ}
    {A' : SlotAllocator} (h : A.allocate acc = some (s, A')) :
    ∃ hne : A.free.Nonempty,
      s = A.free.min' hne ∧ A' = ⟨A.free.erase s, mapInsert acc s A.used⟩ := by
  unfold SlotAllocator.allocate at h
  split at h
  · rename_i hne
    refine ⟨hne, ?_, ?_⟩ <;> simp_all [eq_comm]
  · exact absurd h (by simp)

/-- An arbitrary client-driven sequence of allocator calls. -/
inductive AllocOp where
  | alloc (accountId : String)
  | rel (accountId : String)

/-- One allocator call; a raising `allocate` on an exhausted pool leaves the
allocator unchanged. -/
def applyAllocOp (A : SlotAllocator) : AllocOp → SlotAllocator
  | .alloc a =>
    match A.allocate a with
    | some (_, A') => A'
    | none => A
  | .rel a => A.release a

def applyAllocOps (A : SlotAllocator) (ops : List AllocOp) : SlotAllocator :=
  ops.foldl applyAllocOp A

/-- A slot is leaked when it is outside the free pool and owned by nobody. -/
def slotLeaked (A : SlotAllocator) (s : ℕ) : Prop :=
  s ∉ A.free ∧ ∀ p ∈ A.used, p.2 ≠ s

theorem slotLeaked_applyAllocOp {A : SlotAllocator} {s : ℕ}
    (h : slotLeaked A s) (op : AllocOp) : slotLeaked (applyAllocOp A op) s := by
  obtain ⟨hfree, hused⟩ := h
  cases op with
  | alloc a =>
    simp only [applyAllocOp]
    cases hall : A.allocate a with
    | none => exact ⟨hfree, hused⟩
    | some pr =>
      obtain ⟨s2, A'⟩ := pr
      obtain ⟨hne, hs2, hA'⟩ := allocate_eq_some hall
      subst hA'
      refine ⟨fun hmem => hfree (Finset.mem_of_mem_erase hmem), ?_⟩
      intro p hp
      rcases mem_mapInsert hp with hnew | hold
      · subst hnew
        intro hc
        exact hfree (hc ▸ hs2 ▸ A.free.min'_mem hne)
      · exact hused p hold
  | rel a =>
    simp only [applyAllocOp, SlotAllocator.release]
    cases hl : mapLookup a A.used with
    | none => exact ⟨hfree, hused⟩
    | some t =>
      have ht : t ≠ s := hused _ (mapLookup_some_mem hl)
      refine ⟨?_, ?_⟩
      · intro hmem
        rcases Finset.mem_insert.1 hmem with hts | hf
        · exact ht hts.symm
        · exact hfree hf
      · intro p hp
        exact hused p (mem_mapErase hp)

theorem slotLeaked_applyAllocOps {A : SlotAllocator} {s : ℕ}
    (h : slotLeaked A s) (ops : List AllocOp) :
    slotLeaked (applyAllocOps A ops) s := by
  induction ops generalizing A with
  | nil => exact h
  | cons op ops ih => exact ih (slotLeaked_applyAllocOp h op)

/-! ### Stream de-framing (src/server2.py lines 776-799)

```python
buf = ""
while True:
    data = self.request.recv(4096)
    if not data: break
    buf += data.decode("utf-8", errors="ignore")
    while "\x00" in buf:
        packet, buf = buf.split("\x00", 1)
        ...
        self.handle_packet(packet)
```
-/

/-- `s.split(sep, 1)` when `sep` occurs: the part before the first separator
and the rest; `none` when the separator is absent. -/
def splitFirstAt (sep : Char) : List Char → Option (List Char × List Char)
  | [] => none
  | c :: cs =>
    if c = sep then some ([], cs)
    else
      match splitFirstAt sep cs with
      | none => none
      | some (p, r) => some (c :: p, r)

theorem splitFirstAt_spec {sep : Char} :
    ∀ {l p r : List Char}, splitFirstAt sep l = some (p, r) →
      l = p ++ sep :: r ∧ sep ∉ p ∧ r.length < l.length := by
  intro l
  induction l with
  | nil => intro p r h; simp [splitFirstAt] at h
  | cons c cs ih =>
    intro p r h
    by_cases hc : c = sep
    · simp [splitFirstAt, hc] at h
      obtain ⟨hp, hr⟩ := h
      subst hp; subst hr
      simp [hc]
    · simp only [splitFirstAt, if_neg hc] at h
      cases hs : splitFirstAt sep cs with
      | none => rw [hs] at h; exact absurd h (by simp)
      | some pr =>
        obtain ⟨p', r'⟩ := pr
        rw [hs] at h
        simp only [Option.some.injEq, Prod.mk.injEq] at h
        obtain ⟨hp, hr⟩ := h
        obtain ⟨heq, hnot, hlen⟩ := ih hs
        subst hp; subst hr
        refine ⟨by simp [heq], ?_, by simpa using Nat.lt_succ_of_lt hlen⟩
        intro hmem
        rcases List.mem_cons.1 hmem with h1 | h1
        · exact hc h1.symm
        · exact hnot h1

theorem splitFirstAt_none {sep : Char} :
    ∀ {l : List Char}, splitFirstAt sep l = none → sep ∉ l := by
  intro l
  induction l with
  | nil => simp
  | cons c cs ih =>
    intro h hmem
    by_cases hc : c = sep
    · simp [splitFirstAt, hc] at h
    · simp only [splitFirstAt, if_neg hc] at h
      cases hs : splitFirstAt sep cs with
      | none =>
        rcases List.mem_cons.1 hmem with h1 | h1
        · exact hc h1.symm
        · exact ih hs h1
      | some pr =>
        obtain ⟨p', r'⟩ := pr
        rw [hs] at h
        exact absurd h (by simp)

/-- The inner `while "\x00" in buf` loop: all complete terminator-delimited
packets, in order, and the retained partial packet. -/
def extractPackets (buf : List Char) : List (List Char) × List Char :=
  match h : splitFirstAt nulChar buf with
  | none => ([], buf)
  | some (p, r) =>
    let rest := extractPackets r
    (p :: rest.1, rest.2)
termination_by buf.length
decreasing_by exact (splitFirstAt_spec h).2.2

/-- The outer read loop: each `recv` result is appended to the retained
buffer and all packets completed by it are processed before the next read. -/
def feedReads (buf : List Char) : List (List Char) → List (List Char) × List Char
  | [] => ([], buf)
  | r :: rs =>
    let once := extractPackets (buf ++ r)
    let rest := feedReads once.2 rs
    (once.1 ++ rest.1, rest.2)

theorem extractPackets_spec (buf : List Char) :
    buf = ((extractPackets buf).1.map (· ++ [nulChar])).join
        ++ (extractPackets buf).2
      ∧ nulChar ∉ (extractPackets buf).2
      ∧ ∀ p ∈ (extractPackets buf).1, nulChar ∉ p := by
  have main : ∀ n (buf : List Char), buf.length ≤ n →
      buf = ((extractPackets buf).1.map (· ++ [nulChar])).join
          ++ (extractPackets buf).2
        ∧ nulChar ∉ (extractPackets buf).2
        ∧ ∀ p ∈ (extractPackets buf).1, nulChar ∉ p := by
    intro n
    induction n with
    | zero =>
      intro buf hb
      have : buf = [] := List.length_eq_zero.1 (Nat.le_zero.1 hb)
      subst this
      rw [extractPackets]
      simp [splitFirstAt]
    | succ n ih =>
      intro buf hb
      rw [extractPackets]
      cases hs : splitFirstAt nulChar buf with
      | none =>
        exact ⟨by simp, splitFirstAt_none hs, by simp⟩
      | some pr =>
        obtain ⟨p, r⟩ := pr
        obtain ⟨heq, hnp, hlen⟩ := splitFirstAt_spec hs
        have hr : r.length ≤ n := by omega
        obtain ⟨h1, h2, h3⟩ := ih r hr
        refine ⟨?_, h2, ?_⟩
        · calc buf = p ++ nulChar :: r := heq
            _ = p ++ [nulChar] ++ r := by simp
            _ = p ++ [nulChar]
                ++ (((extractPackets r).1.map (· ++ [nulChar])).join
                    ++ (extractPackets r).2) := by rw [← h1]
            _ = ((p :: (extractPackets r).1).map (· ++ [nulChar])).join
                ++ (extractPackets r).2 := by simp [List.append_assoc]
        · intro q hq
          rcases List.mem_cons.1 hq with h4 | h4
          · exact h4 ▸ hnp
          · exact h3 q h4
  exact main buf.length buf le_rfl

/-! ### Server state (src/server2.py)

`USER_DB` maps a username to `(md5_hash, account_id_string)`; `USERS` maps an
account id to its connection record (the socket handle is left out; sends to
a user's socket become `Out` values tagged with the account id).  `md5_hash`
is an external hash, passed in as a parameter.  `self.username` and
`self.account_id` of the handler form `HState`.
-/

structure UserRec where
  username : String
  room : Option String
  slot : ℕ
  lastState : Option String
deriving DecidableEq

structure Room where
  name : String
  settings : String
  players : List String
  roundStart : Option Int
  roundLength : Int
deriving DecidableEq

structure ServerState where
  userDB : List (String × (String × String))
  nextId : ℕ
  users : List (String × UserRec)
  rooms : List (String × Room)
  slots : SlotAllocator
deriving DecidableEq

structure HState where
  username : Option String
  accountId : Option String
deriving DecidableEq

/-- A socket write: to the handling connection (`self.send`) or to the
socket registered for an account id (`USERS[acc]["socket"].sendall`). -/
inductive Dest where
  | toSelf
  | toAcct (acc : String)
deriving DecidableEq

structure Out where
  dest : Dest
  data : String
deriving DecidableEq

def mkSelf (s : String) : Out := ⟨.toSelf, s⟩

def mkAcct (a : String) (s : String) : Out := ⟨.toAcct a, s⟩

/-- Python string slicing `s[n:]`. -/
def pyDrop (n : ℕ) (s : String) : String := String.mk (s.data.drop n)

/-- Python string slicing `s[:n]`. -/
def pyTake (n : ℕ) (s : String) : String := String.mk (s.data.take n)

/-- `s.startswith(pre)`. -/
def strStarts (pre s : String) : Bool := pre.data.isPrefixOf s.data

/-- `s.split(sep, 1)` when the separator occurs (else Python unpacking would
raise / `sep in s` is false). -/
def splitOnce (sep : Char) (s : String) : Option (String × String) :=
  match splitFirstAt sep s.data with
  | none => none
  | some (a, b) => some (String.mk a, String.mk b)

/-- `s.strip()` (ASCII whitespace). -/
def pyStrip (s : String) : String :=
  String.mk (((s.data.dropWhile Char.isWhitespace).reverse.dropWhile
    Char.isWhitespace).reverse)

/-- `normalize_room_name`: remove NUL and `\x01` bytes, strip whitespace. -/
def normalizeRoomName (s : String) : String :=
  pyStrip (String.mk (s.data.filter (fun c => c != nulChar && c != sohChar)))

/-- `f"{n:03d}"` for the slot numbers in use (never negative). -/
def pad3 (n : ℕ) : String :=
  let s := toString n
  if s.length < 3 then String.mk (List.replicate (3 - s.length) '0') ++ s else s

/-- `f"{n:02d}"`. -/
def pad2 (n : ℕ) : String :=
  let s := toString n
  if s.length < 2 then String.mk (List.replicate (2 - s.length) '0') ++ s else s

/-- `wire_id(account_id)`; a missing account would raise `KeyError` in
Python — unreachable where it is called, modelled as `""`. -/
def wireIdOf (S : ServerState) (acc : String) : String :=
  match mapLookup acc S.users with
  | some u => pad3 u.slot
  | none => ""

/-- `fmt_name_20`. -/
def fmtName20 (username : String) : String :=
  let base := pyTake 20 ("#" ++ username)
  base ++ String.mk (List.replicate (20 - base.length) sohChar)

/-- `auth_packet`. -/
def authPacket (S : ServerState) (acc : String) : String :=
  match mapLookup acc S.users with
  | none => ""
  | some u =>
    "A" ++ wireIdOf S acc ++ fmtName20 u.username ++ "0" ++ "0" ++ "00" ++ "00"
      ++ "00" ++ "00" ++ "0;0;0;0;0" ++ "0" ++ nulStr

/-- `lobby_user_packet`; returns `b""` for a user not in the lobby. -/
def lobbyUserPacket (S : ServerState) (acc : String) : String :=
  match mapLookup acc S.users with
  | none => ""
  | some u =>
    if u.room ≠ some "_" then ""
    else "U" ++ wireIdOf S acc ++ fmtName20 u.username ++ "0;0;0;0;0;0" ++ "0"
      ++ nulStr

/-- `game_user_packet`. -/
def gameUserPacket (S : ServerState) (acc : String) : String :=
  match mapLookup acc S.users with
  | none => ""
  | some u =>
    let raw := (if u.username = "" then "Player" else u.username).data.filter
      (fun c => c != '#')
    let clean := raw.filter (fun c => decide (32 ≤ c.toNat) && decide (c.toNat ≤ 126))
    let nameBase := '#' :: clean
    let namePadded := if nameBase.length < 20 then
        List.replicate (20 - nameBase.length) '#' ++ nameBase
      else nameBase
    let name20 := namePadded.drop (namePadded.length - 20)
    let headerRaw := "00100".data ++ name20 ++ "1010101010".data
    let headerTrunc := headerRaw.take 35
    let header35 := headerTrunc ++ List.replicate (35 - headerTrunc.length) '0'
    "U" ++ wireIdOf S acc ++ String.mk header35 ++ "0;0;0;0;0000" ++ nulStr

/-- `build_room_list_bytes`. -/
def buildRoomList (S : ServerState) : String :=
  "01" ++ (S.rooms.filter (fun p => p.1 != "_")).foldl
    (fun out p => out ++ pad2 p.2.players.length ++ p.1 ++ ";") "" ++ nulStr

/-- `broadcast_room_list_to_lobby`. -/
def broadcastRoomListToLobby (S : ServerState) : List Out :=
  (S.users.filter (fun p => p.2.room == some "_")).map
    (fun p => mkAcct p.1 (buildRoomList S))

/-- `relay_raw_to_room`; a peer missing from `USERS` is skipped (in Python a
missing peer would raise `KeyError`, unreachable because room members are
always registered). -/
def relayRawToRoom (S : ServerState) (selfAcc roomName rawPacket : String)
    (includeSelf : Bool) : List Out :=
  if roomName = "" then []
  else match mapLookup roomName S.rooms with
  | none => []
  | some room =>
    (room.players.filter (fun p => includeSelf || p != selfAcc)).filterMap
      (fun p => if (mapLookup p S.users).isSome then
          some (mkAcct p (rawPacket ++ nulStr))
        else none)

/-- `relay_state_to_room`; both arms of the Python `if` build the same
rewritten packet `packet[0] + sender_id + packet[1:]`, and the bare
`except` skips a peer whose send fails. -/
def relayStateToRoom (S : ServerState) (selfAcc roomName packet : String) :
    List Out :=
  if roomName = "" then []
  else match mapLookup roomName S.rooms with
  | none => []
  | some room =>
    let out := pyTake 1 packet ++ wireIdOf S selfAcc ++ pyDrop 1 packet ++ nulStr
    (room.players.filter (fun p => p != selfAcc)).filterMap
      (fun p => if (mapLookup p S.users).isSome then some (mkAcct p out)
        else none)

/-- `relay_chat9_to_room`: wraps as `M<senderID><packet>`. -/
def relayChat9ToRoom (S : ServerState) (selfAcc roomName packet : String)
    (includeSelf : Bool) : List Out :=
  if roomName = "" then []
  else match mapLookup roomName S.rooms with
  | none => []
  | some room =>
    let out := "M" ++ wireIdOf S selfAcc ++ packet ++ nulStr
    (room.players.filter (fun p => includeSelf || p != selfAcc)).filterMap
      (fun p => if (mapLookup p S.users).isSome then some (mkAcct p out)
        else none)

/-- `leave_current_room` (src/server2.py lines 329-361): `if not room_name:
return` is a falsiness test, so a recorded room name that is `None` OR the
empty string early-returns with nothing touched; otherwise clear the user's
room field, remove it from the member set, notify the remaining members
with `D<slot>`, and delete the room (announcing to the lobby) if it is now
an empty non-lobby room. -/
def leaveCurrentRoom (S : ServerState) (acc : String) : ServerState × List Out :=
  match mapLookup acc S.users with
  | none => (S, [])
  | some u =>
    match u.room with
    | none => (S, [])
    | some rn =>
      if rn = "" then (S, [])
      else
      let S1 : ServerState :=
        {S with users := mapInsert acc {u with room := none} S.users}
      match mapLookup rn S.rooms with
      | none => (S1, [])
      | some room =>
        let players1 := room.players.erase acc
        let outs := players1.filterMap (fun p =>
          if (mapLookup p S1.users).isSome then
            some (mkAcct p ("D" ++ wireIdOf S1 acc ++ nulStr))
          else none)
        if rn ≠ "_" ∧ players1 = [] then
          let S2 : ServerState := {S1 with rooms := mapErase rn S1.rooms}
          (S2, outs ++ broadcastRoomListToLobby S2)
        else
          ({S1 with rooms := mapInsert rn {room with players := players1} S1.rooms},
            outs)

/-- `remove_user`: disconnect teardown. -/
def removeUser (S : ServerState) (acc : String) : ServerState × List Out :=
  match mapLookup acc S.users with
  | none => (S, [])
  | some _ =>
    let lv := leaveCurrentRoom S acc
    ({lv.1 with slots := lv.1.slots.release acc
                users := mapErase acc lv.1.users}, lv.2)

/-- The fixed cross-domain policy response. -/
def policyResponse : String :=
  "<?xml version=\"1.0\"?><cross-domain-policy><allow-access-from domain=\"*\" to-ports=\"6123\"/></cross-domain-policy>" ++ nulStr

/-- The `"1"`/`"8"` caching branch that heads the dispatcher's `elif` chain
(src/server2.py lines 392-393): it records the raw packet as the sender's
last state and nothing else.  On an unauthenticated handler `USERS[None]`
raises `KeyError`, which the read loop swallows. -/
def cacheStateBranch (h : HState) (S : ServerState) (packet : String) :
    HState × ServerState × List Out :=
  match h.accountId with
  | none => (h, S, [])
  | some acc =>
    match mapLookup acc S.users with
    | none => (h, S, [])
    | some u =>
      (h, {S with users := mapInsert acc {u with lastState := some packet} S.users},
        [])

/-- The `"09"` authentication branch (src/server2.py lines 398-436).  There
is no already-authenticated check: the branch always runs in full.  If the
slot pool is exhausted, `min` raises after the handler identity was set but
before `USERS` is written. -/
def authBranch (md5 : String → String) (h : HState) (S : ServerState)
    (packet : String) : HState × ServerState × List Out :=
  let creds := pyDrop 2 packet
  match splitOnce ';' creds with
  | none => (h, S, [mkSelf ("10;0;Bad format" ++ nulStr)])
  | some (username, password) =>
    let pwdHash := md5 password
    let ack := [mkSelf ("00;1" ++ nulStr)]
    let resolved : Option (String × ServerState) :=
      match mapLookup username S.userDB with
      | some hp => if pwdHash ≠ hp.1 then none else some (hp.2, S)
      | none =>
        let accId := toString S.nextId
        some (accId, {S with nextId := S.nextId + 1
                             userDB := mapInsert username (pwdHash, accId) S.userDB})
    match resolved with
    | none => (h, S, ack ++ [mkSelf ("10;0;Incorrect password" ++ nulStr)])
    | some r =>
      let accId := r.1
      let S1 := r.2
      let loginAck := mkSelf ("10;1;" ++ accId ++ ";" ++ username ++ ";"
        ++ username ++ ";" ++ pwdHash ++ ";1" ++ nulStr)
      let h1 : HState := ⟨some username, some accId⟩
      match S1.slots.allocate accId with
      | none => (h1, S1, ack ++ [loginAck])
      | some sa =>
        let S2 : ServerState := {S1 with slots := sa.2
                                         users := mapInsert accId ⟨username, none, sa.1, none⟩ S1.users}
        (h1, S2, ack ++ [loginAck]
          ++ [mkSelf (authPacket S2 accId), mkSelf ("0p" ++ nulStr)])

/-- The `"03"` join branch (src/server2.py lines 444-590).  The old room is
left (with peer notification) before the target room's existence is
checked. -/
def joinBranch (now : Int) (acc : String) (h : HState) (S : ServerState)
    (packet : String) : HState × ServerState × List Out :=
  let rn := normalizeRoomName (pyDrop 2 packet)
  let preNotify : List Out :=
    match (mapLookup acc S.users).bind (fun u => u.room) with
    | none => []
    | some orn =>
      if orn = "" then []
      else
        let peers := match mapLookup orn S.rooms with
          | some room => room.players
          | none => []
        (peers.filter (fun p => p != acc)).filterMap (fun p =>
          if (mapLookup p S.users).isSome then
            some (mkAcct p ("D" ++ wireIdOf S acc ++ nulStr))
          else none)
  let lv := leaveCurrentRoom S acc
  let S1 := lv.1
  let outs0 := preNotify ++ lv.2
  match mapLookup rn S1.rooms with
  | none => (h, S1, outs0)
  | some room =>
    let players1 := if acc ∈ room.players then room.players
      else room.players ++ [acc]
    let room1 := {room with players := players1}
    let S2u := {S1 with rooms := mapInsert rn room1 S1.rooms}
    let S2 := match mapLookup acc S2u.users with
      | some u => {S2u with users := mapInsert acc {u with room := some rn} S2u.users}
      | none => S2u
    let selfOuts := [mkSelf ("C" ++ wireIdOf S2 acc ++ nulStr),
                     mkSelf (gameUserPacket S2 acc),
                     mkSelf ("6" ++ wireIdOf S2 acc ++ "100000000000" ++ nulStr)]
    let peerSync := ((players1.filter (fun p => p != acc)).map (fun p =>
        [mkSelf ("C" ++ wireIdOf S2 p ++ nulStr)]
        ++ (if rn = "_" ∧ (mapLookup p S2.users).bind (fun u => u.room) = some "_"
            then [mkSelf (lobbyUserPacket S2 p)] else [])
        ++ (if rn = "_" then
              (if (mapLookup p S2.users).isSome then
                [mkAcct p ("C" ++ wireIdOf S2 acc ++ nulStr),
                 mkAcct p (lobbyUserPacket S2 acc)]
              else [])
            else []))).join
    if rn = "_" then
      (h, S2, outs0 ++ selfOuts ++ peerSync ++ [mkSelf (buildRoomList S2)])
    else
      let S3 := if room1.roundStart = none then
          {S2 with rooms := mapInsert rn {room1 with roundStart := some now} S2.rooms}
        else S2
      let start := match room1.roundStart with
        | some s => s
        | none => now
      let remaining : Int := max 0 (room1.roundLength - (now - start))
      let timerOuts := players1.filterMap (fun p =>
        if (mapLookup p S3.users).isSome then
          some (mkAcct p ("p" ++ toString remaining ++ nulStr))
        else none)
      let setupOuts := [mkSelf ("s" ++ room1.settings ++ nulStr),
                        mkSelf ("R" ++ wireIdOf S3 acc ++ nulStr),
                        mkSelf ("G" ++ wireIdOf S3 acc ++ nulStr),
                        mkSelf ("I" ++ wireIdOf S3 acc ++ nulStr)]
      let replayToSelf := (players1.filter (fun p => p != acc)).filterMap (fun q =>
          match (mapLookup q S3.users).bind (fun u => u.lastState) with
          | some l => if l ≠ "" then
              some (mkSelf (pyTake 1 l ++ wireIdOf S3 q ++ pyDrop 1 l ++ nulStr))
            else none
          | none => none)
      let replayMine := match (mapLookup acc S3.users).bind (fun u => u.lastState) with
        | some l =>
          if l ≠ "" then
            (players1.filter (fun p => p != acc)).filterMap (fun q =>
              if (mapLookup q S3.users).isSome then
                some (mkAcct q (pyTake 1 l ++ wireIdOf S3 acc ++ pyDrop 1 l ++ nulStr))
              else none)
          else []
        | none => []
      let spawnSelf := (players1.filter (fun p => p != acc)).map (fun q =>
          mkSelf ("6" ++ wireIdOf S3 q ++ "100000000000" ++ nulStr))
      let spawnPeers := (players1.filter (fun p => p != acc)).filterMap (fun q =>
          if (mapLookup q S3.users).isSome then
            some (mkAcct q ("6" ++ wireIdOf S3 acc ++ "100000000000" ++ nulStr))
          else none)
      let bigLoop := ((players1.filter (fun p => p != acc)).map (fun peer =>
          [mkSelf (gameUserPacket S3 peer)]
          ++ (if (mapLookup peer S3.users).isSome then
                [mkAcct peer ("C" ++ wireIdOf S3 acc ++ nulStr),
                 mkAcct peer (gameUserPacket S3 acc)]
              else [])
          ++ replayToSelf ++ replayMine ++ spawnSelf ++ spawnPeers)).join
      (h, S3, outs0 ++ selfOuts ++ peerSync ++ timerOuts ++ setupOuts ++ bigLoop)

/-- The `"04"` room-info branch (src/server2.py lines 598-616). -/
def roomInfoBranch (now : Int) (S : ServerState) (packet : String) : List Out :=
  let rn := normalizeRoomName (pyDrop 2 packet)
  match mapLookup rn S.rooms with
  | none => []
  | some room =>
    if rn = "_" then []
    else
      let start := match room.roundStart with
        | some s => if s = 0 then now else s
        | none => now
      let remaining : Int := max 0 (room.roundLength - (now - start))
      [mkSelf ("04" ++ "1" ++ "0" ++ "A" ++ pad2 room.players.length
        ++ toString remaining ++ nulStr)]

/-- The `"02"` create branch (src/server2.py lines 619-660).  A room whose
name already exists is overwritten; the creator is the sole member and the
round starts now. -/
def createBranch (now : Int) (acc : String) (h : HState) (S : ServerState)
    (packet : String) : HState × ServerState × List Out :=
  let lv := leaveCurrentRoom S acc
  let S1 := lv.1
  let payload := pyDrop 2 packet
  match splitOnce ';' payload with
  | none => (h, S1, lv.2)
  | some _ =>
    match splitOnce ';' (pyDrop 3 payload) with
    | none => (h, S1, lv.2)
    | some rs =>
      let rn := normalizeRoomName rs.1
      let st := pyStrip rs.2
      let room : Room := ⟨rn, st, [acc], some now, 600⟩
      let S2u := {S1 with rooms := mapInsert rn room S1.rooms}
      let S2 := match mapLookup acc S2u.users with
        | some u => {S2u with users := mapInsert acc {u with room := some rn} S2u.users}
        | none => S2u
      (h, S2, lv.2 ++
        [mkSelf ("C" ++ wireIdOf S2 acc ++ nulStr),
         mkSelf ("p" ++ toString (600 : Int) ++ nulStr),
         mkSelf ("s" ++ st ++ nulStr),
         mkSelf ("R" ++ wireIdOf S2 acc ++ nulStr),
         mkSelf ("G" ++ wireIdOf S2 acc ++ nulStr),
         mkSelf ("I" ++ wireIdOf S2 acc ++ nulStr),
         mkSelf (gameUserPacket S2 acc)]
        ++ broadcastRoomListToLobby S2)

/-- The shared shape of the `"1"/"8"/"4"`, `"6"` and `"7"` relay branches. -/
def stateRelayBranch (S : ServerState) (acc : String) (packet : String) :
    List Out :=
  match (mapLookup acc S.users).bind (fun u => u.room) with
  | none => []
  | some rn => if rn = "" then [] else relayStateToRoom S acc rn packet

/-- The `"0k"`/`"0q"` raw forwarding branch. -/
def rawRelayBranch (S : ServerState) (acc : String) (packet : String) :
    List Out :=
  match (mapLookup acc S.users).bind (fun u => u.room) with
  | none => []
  | some rn => if rn = "" then [] else relayRawToRoom S acc rn packet false

/-- The chat branch for `"9..."` (not `"9?"`): note `include_self=True`. -/
def chatBranch (S : ServerState) (acc : String) (packet : String) : List Out :=
  match (mapLookup acc S.users).bind (fun u => u.room) with
  | none => []
  | some rn => if rn = "" then [] else relayChat9ToRoom S acc rn packet true

/-- The `"0d"` customization rebroadcast branch. -/
def customizationBranch (S : ServerState) (acc : String) : List Out :=
  match (mapLookup acc S.users).bind (fun u => u.room) with
  | none => []
  | some rn =>
    if rn = "" then []
    else match mapLookup rn S.rooms with
    | none => []
    | some room =>
      ((room.players.filter (fun p => p != acc)).filterMap (fun p =>
        if (mapLookup p S.users).isSome then
          some [mkAcct p ("C" ++ wireIdOf S acc ++ nulStr),
                mkAcct p (gameUserPacket S acc)]
        else none)).join

/-- The `"p"` round-time branch (src/server2.py lines 731-744).  Note the
Python `or`: a stored `round_start` of `0` would also count as unset. -/
def roundTimeBranch (now : Int) (acc : String) (S : ServerState) : List Out :=
  match (mapLookup acc S.users).bind (fun u => u.room) with
  | none => []
  | some rn =>
    if rn = "" then []
    else match mapLookup rn S.rooms with
    | none => []
    | some room =>
      let start := match room.roundStart with
        | some s => if s = 0 then now else s
        | none => now
      let remaining : Int := max 0 (room.roundLength - (now - start))
      mkSelf ("p" ++ toString remaining ++ nulStr)
        :: relayRawToRoom S acc rn ("p" ++ toString remaining) false

/-- The `"00"` point-to-point branch (src/server2.py lines 746-764). -/
def p2pBranch (S : ServerState) (acc : String) (packet : String) : List Out :=
  if packet.length < 5 then []
  else
    let targetWire := pyTake 3 (pyDrop 2 packet)
    let payload := pyDrop 5 packet
    match S.users.find? (fun p => pad3 p.2.slot == targetWire) with
    | none => []
    | some p => [mkAcct p.1 ("M" ++ wireIdOf S acc ++ payload ++ nulStr)]

/-- The tail of `handle_packet`'s `elif` chain, below the authentication
guard (src/server2.py lines 443-768). -/
def authedDispatch (md5 : String → String) (now : Int) (acc : String)
    (h : HState) (S : ServerState) (packet : String) :
    HState × ServerState × List Out :=
  if strStarts "03" packet then joinBranch now acc h S packet
  else if packet = "01" then (h, S, [mkSelf (buildRoomList S)])
  else if strStarts "04" packet then (h, S, roomInfoBranch now S packet)
  else if strStarts "02" packet then createBranch now acc h S packet
  else if strStarts "9?" packet then
    (h, S, [mkSelf ("M" ++ wireIdOf S acc ++ "9?" ++ pyDrop 2 packet ++ nulStr)])
  else if strStarts "1" packet || strStarts "8" packet || strStarts "4" packet then
    (h, S, stateRelayBranch S acc packet)
  else if strStarts "6" packet then (h, S, stateRelayBranch S acc packet)
  else if strStarts "7" packet then (h, S, stateRelayBranch S acc packet)
  else if strStarts "0k" packet || strStarts "0q" packet then
    (h, S, rawRelayBranch S acc packet)
  else if strStarts "9" packet && !(strStarts "9?" packet) then
    (h, S, chatBranch S acc packet)
  else if strStarts "0d" packet then (h, S, customizationBranch S acc)
  else if packet = "p" then (h, S, roundTimeBranch now acc S)
  else if strStarts "00" packet then (h, S, p2pBranch S acc packet)
  else (h, S, [])

/-- `handle_packet` (src/server2.py lines 375-768): one `if/elif` chain.
The caching branch for `"1"`/`"8"` heads the chain, so the
`elif packet.startswith(("1", "8", "4"))` relay below it is reachable only
for `"4"` packets.  "Everything below requires auth": an unknown or
unregistered `account_id` silently drops the packet. -/
def handlePacket (md5 : String → String) (now : Int) (h : HState)
    (S : ServerState) (packet : String) : HState × ServerState × List Out :=
  if packet = "" then (h, S, [])
  else if packet = "<policy-file-request/>" then (h, S, [mkSelf policyResponse])
  else if strStarts "1" packet || strStarts "8" packet then
    cacheStateBranch h S packet
  else if strStarts "09" packet then authBranch md5 h S packet
  else
    match h.accountId with
    | none => (h, S, [])
    | some acc =>
      if (mapLookup acc S.users).isNone then (h, S, [])
      else authedDispatch md5 now acc h S packet

/-- A sequence of de-framed packets handled on one connection. -/
def runPackets (md5 : String → String) (now : Int) (h : HState)
    (S : ServerState) : List String → HState × ServerState × List Out
  | [] => (h, S, [])
  | p :: ps =>
    let r1 := handlePacket md5 now h S p
    let r2 := runPackets md5 now r1.1 r1.2.1 ps
    (r2.1, r2.2.1, r1.2.2 ++ r2.2.2)

/-- The boot state: a fresh `users.db`, the permanent lobby `"_"`, all
slots free. -/
def initState : ServerState :=
  ⟨[], 1, [], [("_", ⟨"_", "", [], none, 600⟩)], initSlots⟩

def initH : HState := ⟨none, none⟩

/-- A deterministic stand-in for `hashlib.md5` used in concrete runs. -/
def md5c : String → String := fun _ => "H"

/-! ### Further association-list and list lemmas -/

def keysOf {α : Type} (m : List (String × α)) : List String := m.map Prod.fst

theorem mapLookup_eq_none_iff {α : Type} {k : String} {m : List (String × α)} :
    mapLookup k m = none ↔ ∀ p ∈ m, p.1 ≠ k := by
  induction m with
  | nil => simp [mapLookup]
  | cons p m ih =>
    by_cases hp : p.1 = k
    · simp [mapLookup, hp]
    · simp [mapLookup, hp, ih]

theorem mem_mapErase_key {α : Type} {k : String} {m : List (String × α)}
    {p : String × α} (h : p ∈ mapErase k m) : p.1 ≠ k := by
  induction m with
  | nil => simp [mapErase] at h
  | cons q m ih =>
    by_cases hq : q.1 = k
    · simp only [mapErase, if_pos hq] at h
      exact ih h
    · simp only [mapErase, if_neg hq] at h
      rcases List.mem_cons.1 h with h1 | h1
      · exact h1 ▸ hq
      · exact ih h1

theorem keysNodup_mapInsert {α : Type} {k : String} {v : α}
    {m : List (String × α)} (h : (keysOf m).Nodup) :
    (keysOf (mapInsert k v m)).Nodup := by
  induction m with
  | nil => simp [mapInsert, keysOf]
  | cons p m ih =>
    simp only [keysOf, List.map_cons, List.nodup_cons] at h
    by_cases hp : p.1 = k
    · simp only [mapInsert, if_pos hp, keysOf, List.map_cons, List.nodup_cons]
      exact ⟨hp ▸ h.1, h.2⟩
    · simp only [mapInsert, if_neg hp, keysOf, List.map_cons, List.nodup_cons]
      constructor
      · intro hmem
        rcases List.mem_map.1 hmem with ⟨q, hq, hqe⟩
        rcases mem_mapInsert hq with h1 | h1
        · exact hp (by rw [← hqe, h1])
        · exact h.1 (hqe ▸ List.mem_map_of_mem Prod.fst h1)
      · exact ih h.2

theorem keysNodup_mapErase {α : Type} {k : String} {m : List (String × α)}
    (h : (keysOf m).Nodup) : (keysOf (mapErase k m)).Nodup := by
  induction m with
  | nil => simp [mapErase, keysOf]
  | cons p m ih =>
    simp only [keysOf, List.map_cons, List.nodup_cons] at h
    by_cases hp : p.1 = k
    · simp only [mapErase, if_pos hp]
      exact ih h.2
    · simp only [mapErase, if_neg hp, keysOf, List.map_cons, List.nodup_cons]
      refine ⟨?_, ih h.2⟩
      intro hmem
      rcases List.mem_map.1 hmem with ⟨q, hq, hqe⟩
      exact h.1 (hqe ▸ List.mem_map_of_mem Prod.fst (mem_mapErase hq))

/-- With duplicate-free keys, a member of `mapInsert` is the new binding or
an old binding whose key differs. -/
theorem mem_mapInsert_of_nodup {α : Type} {k : String} {v : α}
    {m : List (String × α)} {p : String × α} (hn : (keysOf m).Nodup)
    (h : p ∈ mapInsert k v m) : p = (k, v) ∨ (p ∈ m ∧ p.1 ≠ k) := by
  induction m with
  | nil =>
    simp only [mapInsert, List.mem_singleton] at h
    exact Or.inl h
  | cons q m ih =>
    simp only [keysOf, List.map_cons, List.nodup_cons] at hn
    by_cases hq : q.1 = k
    · simp only [mapInsert, if_pos hq] at h
      rcases List.mem_cons.1 h with h1 | h1
      · exact Or.inl h1
      · refine Or.inr ⟨List.mem_cons_of_mem _ h1, ?_⟩
        intro hc
        have hm : p.1 ∈ List.map Prod.fst m := List.mem_map_of_mem Prod.fst h1
        rw [hc, ← hq] at hm
        exact hn.1 hm
    · simp only [mapInsert, if_neg hq] at h
      rcases List.mem_cons.1 h with h1 | h1
      · exact Or.inr ⟨h1 ▸ List.mem_cons_self _ _, h1 ▸ hq⟩
      · rcases ih hn.2 h1 with h2 | h2
        · exact Or.inl h2
        · exact Or.inr ⟨List.mem_cons_of_mem _ h2.1, h2.2⟩

/-- A guarded `filterMap` collapses to `map` when the guard holds on every
element. -/
theorem filterMap_guard_eq_map {α β : Type} (l : List α) (c : α → Bool)
    (f : α → β) (h : ∀ x ∈ l, c x = true) :
    (l.filterMap (fun x => if c x then some (f x) else none)) = l.map f := by
  induction l with
  | nil => rfl
  | cons x l ih =>
    have hx := h x (List.mem_cons_self _ _)
    simp only [List.filterMap_cons, hx, if_pos, List.map_cons]
    rw [ih (fun y hy => h y (List.mem_cons_of_mem _ hy))]

/-! ### String-shape helpers for walking the dispatcher chain -/

theorem str_data_inj {s t : String} (h : s = t) : s.data = t.data := by rw [h]

theorem ne_empty_of_data {s : String} {c : Char} {t : List Char}
    (h : s.data = c :: t) : ¬ s = "" := by
  intro he
  rw [he] at h
  exact absurd h (by simp)

theorem ne_of_data_head {s u : String} {c d : Char} {l1 l2 : List Char}
    (hs : s.data = c :: l1) (hu : u.data = d :: l2) (hcd : ¬ c = d) :
    ¬ s = u := by
  intro he
  have := str_data_inj he
  rw [hs, hu] at this
  exact hcd (by injection this)

theorem strStarts_true_of_data {p s : String} {t : List Char}
    (h : s.data = p.data ++ t) : strStarts p s = true := by
  unfold strStarts
  rw [h]
  generalize p.data = l
  induction l with
  | nil => simp [List.isPrefixOf]
  | cons c cs ih => simp [List.isPrefixOf, ih]

theorem strStarts_false_head {p s : String} {c d : Char} {tp ts : List Char}
    (hp : p.data = c :: tp) (hs : s.data = d :: ts) (hcd : ¬ c = d) :
    strStarts p s = false := by
  unfold strStarts
  rw [hp, hs]
  simp [List.isPrefixOf]
  intro h
  exact absurd h hcd

theorem strStarts_false_head2 {p s : String} {c d e : Char} {tp ts : List Char}
    (hp : p.data = c :: d :: tp) (hs : s.data = c :: e :: ts) (hde : ¬ d = e) :
    strStarts p s = false := by
  unfold strStarts
  rw [hp, hs]
  simp [List.isPrefixOf]
  intro h
  exact absurd h hde

theorem str_ne_nil_empty : ("" : String).data = [] := rfl

/-! ### Symbolic allocation (avoids normalising the 999-element pool) -/

theorem min'_eq {s : Finset ℕ} {a : ℕ} (H : s.Nonempty) (ha : a ∈ s)
    (hle : ∀ b ∈ s, a ≤ b) : s.min' H = a :=
  le_antisymm (Finset.min'_le s a ha) (Finset.le_min' s H a hle)

theorem allocate_step (A : SlotAllocator) (acc : String) (a : ℕ)
    (ha : a ∈ A.free) (hle : ∀ b ∈ A.free, a ≤ b) :
    A.allocate acc = some (a, ⟨A.free.erase a, mapInsert acc a A.used⟩) := by
  have hne : A.free.Nonempty := ⟨a, ha⟩
  unfold SlotAllocator.allocate
  rw [dif_pos hne]
  rw [min'_eq hne ha hle]

/-! ### Well-formedness invariants -/

/-- Well-formed server state: duplicate-free keys and member sets, and every
room member's `room` field points back at that room. -/
def Wf (S : ServerState) : Prop :=
  (keysOf S.users).Nodup ∧
  (keysOf S.rooms).Nodup ∧
  (∀ p ∈ S.rooms, p.2.players.Nodup) ∧
  (∀ p ∈ S.rooms, ∀ a ∈ p.2.players,
    ((mapLookup a S.users).bind (fun u => u.room)) = some p.1)

instance (S : ServerState) : Decidable (Wf S) := by
  unfold Wf
  infer_instance

/-- The lobby exists and no empty non-lobby room persists. -/
def Inv6 (S : ServerState) : Prop :=
  (mapLookup "_" S.rooms).isSome ∧
  ∀ p ∈ S.rooms, p.1 ≠ "_" → p.2.players ≠ []

instance (S : ServerState) : Decidable (Inv6 S) := by
  unfold Inv6
  infer_instance

/-- `max(0, round_length - (now - round_start))`. -/
def roundRemaining (len start now : Int) : Int := max 0 (len - (now - start))

/-! ### Concrete fixture states

`S0fix` is exactly the state produced from boot by one authentication
`09a;b` (with hash stand-in `md5c`): account `"1"`, username `"a"`, slot 1.
`SAfix` adds a created room `"A"`; `S2fix` is the analogous state with two
authenticated accounts both members of room `"A"`. -/

def lobbyRoom : Room := ⟨"_", "", [], none, 600⟩

def authedSlots : SlotAllocator := ⟨(Finset.Icc 1 999).erase 1, [("1", 1)]⟩

def S0fix : ServerState :=
  ⟨[("a", ("H", "1"))], 2, [("1", ⟨"a", none, 1, none⟩)], [("_", lobbyRoom)],
   authedSlots⟩

def h0fix : HState := ⟨some "a", some "1"⟩

def SAfix : ServerState :=
  ⟨[("a", ("H", "1"))], 2, [("1", ⟨"a", some "A", 1, none⟩)],
   [("_", lobbyRoom), ("A", ⟨"A", "FG", ["1"], some 0, 600⟩)], authedSlots⟩

def slotsB : SlotAllocator := ⟨((Finset.Icc 1 999).erase 1).erase 2, [("1", 2)]⟩

def SBfix : ServerState :=
  ⟨[("a", ("H", "1"))], 2, [("1", ⟨"a", none, 2, none⟩)],
   [("_", lobbyRoom), ("A", ⟨"A", "FG", ["1"], some 0, 600⟩)], slotsB⟩

def SCfix : ServerState :=
  ⟨[("a", ("H", "1"))], 2, [("1", ⟨"a", some "B", 2, none⟩)],
   [("_", lobbyRoom), ("A", ⟨"A", "FG", ["1"], some 0, 600⟩),
    ("B", ⟨"B", "FG", ["1"], some 0, 600⟩)], slotsB⟩

def twoSlots : SlotAllocator :=
  ⟨((Finset.Icc 1 999).erase 1).erase 2, [("1", 1), ("2", 2)]⟩

def S2fix : ServerState :=
  ⟨[("a", ("H", "1")), ("b", ("H", "2"))], 3,
   [("1", ⟨"a", some "A", 1, none⟩), ("2", ⟨"b", some "A", 2, none⟩)],
   [("_", lobbyRoom), ("A", ⟨"A", "FG", ["1", "2"], some 0, 600⟩)], twoSlots⟩

/-! ### Behaviour of the authentication branch on an existing account -/

theorem authBranch_existing (md5 : String → String) (h : HState)
    (S : ServerState) (packet username password stored accId : String) (s : ℕ)
    (A' : SlotAllocator)
    (hsplit : splitOnce ';' (pyDrop 2 packet) = some (username, password))
    (hdb : mapLookup username S.userDB = some (stored, accId))
    (hhash : md5 password = stored)
    (halloc : S.slots.allocate accId = some (s, A')) :
    (authBranch md5 h S packet).1 = ⟨some username, some accId⟩ ∧
    (authBranch md5 h S packet).2.1 =
      {S with slots := A'
              users := mapInsert accId ⟨username, none, s, none⟩ S.users} ∧
    mkSelf ("10;1;" ++ accId ++ ";" ++ username ++ ";" ++ username ++ ";"
        ++ md5 password ++ ";1" ++ nulStr) ∈ (authBranch md5 h S packet).2.2 := by
  unfold authBranch
  simp only [hsplit, hdb, hhash]
  rw [if_neg (show ¬ stored ≠ stored from fun hc => hc rfl)]
  simp only [halloc]
  simp

theorem leave_field_none (S : ServerState) (acc : String)
    (hns : ((mapLookup acc S.users).bind (fun u => u.room)) ≠ some "") :
    ((mapLookup acc (leaveCurrentRoom S acc).1.users).bind (fun u => u.room)) = none := by
  unfold leaveCurrentRoom
  cases h1 : mapLookup acc S.users with
  | none => simp [h1]
  | some u =>
    cases h2 : u.room with
    | none => simp [h1, h2]
    | some rn =>
      have h0 : ¬ rn = "" := by
        intro hc
        apply hns
        rw [h1]
        simp [Option.bind, h2, hc]
      simp only [h1, h2, if_neg h0]
      cases h3 : mapLookup rn S.rooms with
      | none => simp [h3, mapLookup_insert_self]
      | some room =>
        simp only [h3]
        split
        · simp [mapLookup_insert_self]
        · simp [mapLookup_insert_self]

theorem leave_rooms_none (S : ServerState) (acc rn : String)
    (h : mapLookup rn S.rooms = none) :
    mapLookup rn (leaveCurrentRoom S acc).1.rooms = none := by
  unfold leaveCurrentRoom
  cases h1 : mapLookup acc S.users with
  | none => simpa [h1] using h
  | some u =>
    cases h2 : u.room with
    | none => simpa [h1, h2] using h
    | some rn0 =>
      by_cases h0 : rn0 = ""
      · simpa [h1, h2, if_pos h0] using h
      · simp only [h1, h2, if_neg h0]
        cases h3 : mapLookup rn0 S.rooms with
        | none => simpa [h3] using h
        | some room =>
          by_cases he : rn = rn0
          · rw [he] at h
            rw [h] at h3
            exact absurd h3 (by simp)
          · simp only [h3]
            split
            · simpa using (mapLookup_erase_ne rn0 rn S.rooms he).trans h
            · simpa using (mapLookup_insert_ne rn0 rn _ S.rooms he).trans h

theorem leave_users_ne (S : ServerState) (acc a : String) (ha : a ≠ acc) :
    mapLookup a (leaveCurrentRoom S acc).1.users = mapLookup a S.users := by
  unfold leaveCurrentRoom
  cases h1 : mapLookup acc S.users with
  | none => simp [h1]
  | some u =>
    cases h2 : u.room with
    | none => simp [h1, h2]
    | some rn0 =>
      by_cases h0 : rn0 = ""
      · simp [h1, h2, if_pos h0]
      · simp only [h1, h2, if_neg h0]
        cases h3 : mapLookup rn0 S.rooms with
        | none => simpa [h3] using mapLookup_insert_ne acc a _ S.users ha
        | some room =>
          simp only [h3]
          split
          · simpa using mapLookup_insert_ne acc a _ S.users ha
          · simpa using mapLookup_insert_ne acc a _ S.users ha

theorem leave_users_isSome (S : ServerState) (acc : String) :
    (mapLookup acc (leaveCurrentRoom S acc).1.users).isSome
      = (mapLookup acc S.users).isSome := by
  unfold leaveCurrentRoom
  cases h1 : mapLookup acc S.users with
  | none => simp [h1]
  | some u =>
    cases h2 : u.room with
    | none => simp [h1, h2]
    | some rn0 =>
      by_cases h0 : rn0 = ""
      · simp [h1, h2, if_pos h0]
      · simp only [h1, h2, if_neg h0]
        cases h3 : mapLookup rn0 S.rooms with
        | none => simp [h3, mapLookup_insert_self]
        | some room =>
          simp only [h3]
          split
          · simp [mapLookup_insert_self, h1]
          · simp [mapLookup_insert_self, h1]

theorem leave_not_member (S : ServerState) (acc : String) (hWf : Wf S)
    (hns : ((mapLookup acc S.users).bind (fun u => u.room)) ≠ some "") :
    ∀ rn room, mapLookup rn (leaveCurrentRoom S acc).1.rooms = some room →
      acc ∉ room.players := by
  obtain ⟨hun, hrn, hpn, hmf⟩ := hWf
  unfold leaveCurrentRoom
  cases h1 : mapLookup acc S.users with
  | none =>
    intro rn room hl hmem
    have hb := hmf (rn, room) (mapLookup_some_mem (by simpa [h1] using hl)) acc hmem
    rw [h1] at hb
    simp at hb
  | some u =>
    cases h2 : u.room with
    | none =>
      intro rn room hl hmem
      have hb := hmf (rn, room) (mapLookup_some_mem (by simpa [h1, h2] using hl)) acc hmem
      rw [h1] at hb
      simp [h2] at hb
    | some rn0 =>
      have h0 : ¬ rn0 = "" := by
        intro hc
        apply hns
        rw [h1]
        simp [Option.bind, h2, hc]
      simp only [h1, h2, if_neg h0]
      cases h3 : mapLookup rn0 S.rooms with
      | none =>
        intro rn room hl hmem
        have hl' : mapLookup rn S.rooms = some room := by simpa [h3] using hl
        have hb := hmf (rn, room) (mapLookup_some_mem hl') acc hmem
        rw [h1] at hb
        simp only [Option.bind, h2, Option.some.injEq] at hb
        rw [← hb] at hl'
        rw [hl'] at h3
        exact absurd h3 (by simp)
      | some room0 =>
        have hmem0 : (rn0, room0) ∈ S.rooms := mapLookup_some_mem h3
        have hnod0 : room0.players.Nodup := hpn _ hmem0
        simp only [h3]
        split
        · intro rn room hl hmem
          have hmemE := mapLookup_some_mem hl
          have hne := mem_mapErase_key hmemE
          have hb := hmf (rn, room) (mem_mapErase hmemE) acc hmem
          rw [h1] at hb
          simp only [Option.bind, h2, Option.some.injEq] at hb
          exact hne hb.symm
        · intro rn room hl hmem
          have hmemI := mapLookup_some_mem hl
          rcases mem_mapInsert_of_nodup hrn hmemI with hnew | hold
          · have hroomeq : room = {room0 with players := room0.players.erase acc} := by
              injection hnew with ha hb
            rw [hroomeq] at hmem
            exact ((hnod0.mem_erase_iff).1 hmem).1 rfl
          · have hb := hmf (rn, room) hold.1 acc hmem
            rw [h1] at hb
            simp only [Option.bind, h2, Option.some.injEq] at hb
            exact hold.2 hb.symm

theorem leave_wf (S : ServerState) (acc : String) (hWf : Wf S) :
    Wf (leaveCurrentRoom S acc).1 := by
  obtain ⟨hun, hrn, hpn, hmf⟩ := hWf
  unfold leaveCurrentRoom
  cases h1 : mapLookup acc S.users with
  | none => exact ⟨hun, hrn, hpn, hmf⟩
  | some u =>
    cases h2 : u.room with
    | none =>
      simp only [h2]
      exact ⟨hun, hrn, hpn, hmf⟩
    | some rn0 =>
      by_cases h0 : rn0 = ""
      · simp only [h2, if_pos h0]
        exact ⟨hun, hrn, hpn, hmf⟩
      · have hun' : (keysOf (mapInsert acc {u with room := none} S.users)).Nodup :=
          keysNodup_mapInsert hun
        have hulook : ∀ a, a ≠ acc →
            mapLookup a (mapInsert acc {u with room := none} S.users)
              = mapLookup a S.users :=
          fun a ha => mapLookup_insert_ne acc a _ S.users ha
        cases h3 : mapLookup rn0 S.rooms with
        | none =>
          simp only [h2, if_neg h0, h3]
          refine ⟨hun', hrn, hpn, ?_⟩
          intro p hp a ha
          have hb := hmf p hp a ha
          by_cases hae : a = acc
          · subst hae
            rw [h1] at hb
            simp only [Option.bind, h2, Option.some.injEq] at hb
            exact absurd hb.symm ((mapLookup_eq_none_iff.1 h3) p hp)
          · rw [hulook a hae]
            exact hb
        | some room0 =>
          have hmem0 : (rn0, room0) ∈ S.rooms := mapLookup_some_mem h3
          have hnod0 : room0.players.Nodup := hpn _ hmem0
          simp only [h2, if_neg h0, h3]
          split
          · refine ⟨hun', keysNodup_mapErase hrn, ?_, ?_⟩
            · intro p hp
              exact hpn p (mem_mapErase hp)
            · intro p hp a ha
              have hkey := mem_mapErase_key hp
              have hb := hmf p (mem_mapErase hp) a ha
              by_cases hae : a = acc
              · subst hae
                rw [h1] at hb
                simp only [Option.bind, h2, Option.some.injEq] at hb
                exact absurd hb.symm hkey
              · rw [hulook a hae]
                exact hb
          · refine ⟨hun', keysNodup_mapInsert hrn, ?_, ?_⟩
            · intro p hp
              rcases mem_mapInsert_of_nodup hrn hp with hnew | hold
              · rw [hnew]
                exact hnod0.erase acc
              · exact hpn p hold.1
            · intro p hp a ha
              rcases mem_mapInsert_of_nodup hrn hp with hnew | hold
              · subst hnew
                simp only at ha
                have haa := (hnod0.mem_erase_iff).1 ha
                rw [hulook a haa.1]
                exact hmf (rn0, room0) hmem0 a haa.2
              · have hb := hmf p hold.1 a ha
                by_cases hae : a = acc
                · subst hae
                  rw [h1] at hb
                  simp only [Option.bind, h2, Option.some.injEq] at hb
                  exact absurd hb.symm hold.2
                · rw [hulook a hae]
                  exact hb

theorem leave_inv6 (S : ServerState) (acc : String) (hI : Inv6 S) :
    Inv6 (leaveCurrentRoom S acc).1 := by
  obtain ⟨hlob, hne⟩ := hI
  unfold leaveCurrentRoom
  cases h1 : mapLookup acc S.users with
  | none => exact ⟨hlob, hne⟩
  | some u =>
    cases h2 : u.room with
    | none =>
      simp only [h2]
      exact ⟨hlob, hne⟩
    | some rn0 =>
      by_cases h0 : rn0 = ""
      · simp only [h2, if_pos h0]
        exact ⟨hlob, hne⟩
      · cases h3 : mapLookup rn0 S.rooms with
        | none =>
          simp only [h2, if_neg h0, h3]
          exact ⟨hlob, hne⟩
        | some room0 =>
          simp only [h2, if_neg h0, h3]
          split
          · rename_i hcond
            refine ⟨?_, ?_⟩
            · have : mapLookup "_" (mapErase rn0 S.rooms) = mapLookup "_" S.rooms :=
                mapLookup_erase_ne rn0 "_" S.rooms (fun hh => hcond.1 hh.symm)
              simpa [this] using hlob
            · intro p hp hpne
              exact hne p (mem_mapErase hp) hpne
          · rename_i hcond
            rw [not_and_or] at hcond
            refine ⟨?_, ?_⟩
            · by_cases he : rn0 = "_"
              · subst he
                simp [mapLookup_insert_self]
              · have : mapLookup "_"
                    (mapInsert rn0 {room0 with players := room0.players.erase acc} S.rooms)
                      = mapLookup "_" S.rooms :=
                  mapLookup_insert_ne rn0 "_" _ S.rooms (fun hh => he hh.symm)
                simpa [this] using hlob
            · intro p hp hpne
              rcases mem_mapInsert hp with hnew | hold
              · rw [hnew]
                rw [hnew] at hpne
                simp only at hpne ⊢
                rcases hcond with hc | hc
                · exact absurd hpne (by simpa using hc)
                · simpa using hc
              · exact hne p hold hpne

theorem leave_delete_announce (S : ServerState) (acc : String) (u : UserRec)
    (rn : String) (room : Room)
    (h1 : mapLookup acc S.users = some u) (h2 : u.room = some rn)
    (h3 : mapLookup rn S.rooms = some room) (h4 : rn ≠ "_")
    (h5 : room.players.erase acc = []) (h6 : rn ≠ "") :
    mapLookup rn (leaveCurrentRoom S acc).1.rooms = none ∧
    ∀ p ∈ (leaveCurrentRoom S acc).1.users, p.2.room = some "_" →
      mkAcct p.1 (buildRoomList (leaveCurrentRoom S acc).1)
        ∈ (leaveCurrentRoom S acc).2 := by
  unfold leaveCurrentRoom
  simp only [h1, h2, if_neg h6, h3, h5]
  rw [if_pos ⟨h4, trivial⟩]
  constructor
  · simpa using mapLookup_erase_self rn _
  · intro p hp hroom
    refine List.mem_append_right _ ?_
    unfold broadcastRoomListToLobby
    refine List.mem_map.2 ⟨p, List.mem_filter.2 ⟨hp, by simp [hroom]⟩, rfl⟩

theorem mapInsert_mapInsert {α : Type} (k : String) (v1 v2 : α)
    (m : List (String × α)) :
    mapInsert k v2 (mapInsert k v1 m) = mapInsert k v2 m := by
  induction m with
  | nil => simp [mapInsert]
  | cons p m ih =>
    by_cases hp : p.1 = k
    · simp [mapInsert, hp]
    · simp [mapInsert, hp, ih]

theorem join_h (now : Int) (acc : String) (h : HState) (S : ServerState)
    (packet : String) : (joinBranch now acc h S packet).1 = h := by
  unfold joinBranch
  cases h4 : mapLookup (normalizeRoomName (pyDrop 2 packet))
      (leaveCurrentRoom S acc).1.rooms with
  | none => simp only [h4]
  | some room =>
    simp only [h4]
    cases h5 : mapLookup acc (leaveCurrentRoom S acc).1.users with
    | none =>
      simp only [h5]
      first
      | rfl
      | split <;> rfl
    | some u1 =>
      simp only [h5]
      first
      | rfl
      | split <;> rfl

theorem create_h (now : Int) (acc : String) (h : HState) (S : ServerState)
    (packet : String) : (createBranch now acc h S packet).1 = h := by
  unfold createBranch
  cases h4 : splitOnce ';' (pyDrop 2 packet) with
  | none => simp only [h4]
  | some pr1 =>
    simp only [h4]
    cases h5 : splitOnce ';' (pyDrop 3 (pyDrop 2 packet)) with
    | none => simp only [h5]
    | some pr2 => simp only [h5]

theorem cache_rooms (h : HState) (S : ServerState) (packet : String) :
    (cacheStateBranch h S packet).2.1.rooms = S.rooms := by
  unfold cacheStateBranch
  repeat' split
  all_goals rfl

theorem cache_h (h : HState) (S : ServerState) (packet : String) :
    (cacheStateBranch h S packet).1 = h := by
  unfold cacheStateBranch
  repeat' split
  all_goals rfl

theorem auth_rooms (md5 : String → String) (h : HState) (S : ServerState)
    (packet : String) : (authBranch md5 h S packet).2.1.rooms = S.rooms := by
  unfold authBranch
  cases h4 : splitOnce ';' (pyDrop 2 packet) with
  | none => simp only [h4]
  | some pr =>
    obtain ⟨username, password⟩ := pr
    simp only [h4]
    cases h5 : mapLookup username S.userDB with
    | none =>
      simp only [h5]
      cases h6 : ({S with nextId := S.nextId + 1
                          userDB := mapInsert username (md5 password, toString S.nextId) S.userDB} :
          ServerState).slots.allocate (toString S.nextId) with
      | none => simp only [h6]
      | some sa => simp only [h6]
    | some hp =>
      simp only [h5]
      by_cases h7 : md5 password ≠ hp.1
      · simp only [if_pos h7]
      · simp only [if_neg h7]
        cases h6 : S.slots.allocate hp.2 with
        | none => simp only [h6]
        | some sa => simp only [h6]

theorem cache_wf (h : HState) (S : ServerState) (packet : String)
    (hWf : Wf S) : Wf (cacheStateBranch h S packet).2.1 := by
  obtain ⟨hun, hrn, hpn, hmf⟩ := hWf
  unfold cacheStateBranch
  cases hid : h.accountId with
  | none => exact ⟨hun, hrn, hpn, hmf⟩
  | some acc =>
    cases h1 : mapLookup acc S.users with
    | none =>
      simp only [h1]
      exact ⟨hun, hrn, hpn, hmf⟩
    | some u =>
      simp only [h1]
      refine ⟨keysNodup_mapInsert hun, hrn, hpn, ?_⟩
      intro p hp a ha
      have hb := hmf p hp a ha
      by_cases hae : a = acc
      · subst hae
        rw [mapLookup_insert_self]
        rw [h1] at hb
        simpa using hb
      · rw [mapLookup_insert_ne acc a _ S.users hae]
        exact hb

theorem inv6_of_rooms_eq {S S' : ServerState} (h : S'.rooms = S.rooms)
    (hI : Inv6 S) : Inv6 S' := by
  obtain ⟨hlob, hne⟩ := hI
  exact ⟨by rw [h]; exact hlob, by rw [h]; exact hne⟩

/-- Joining/creating updates the state in one common shape: insert a room
whose members are `acc` plus accounts already pointing at `rn`, and point
`acc`'s record at `rn`. -/
theorem joined_state_wf (S1 : ServerState) (acc rn : String) (newroom : Room)
    (u1 : UserRec) (hWf1 : Wf S1) (hu1 : mapLookup acc S1.users = some u1)
    (hfield : u1.room = none)
    (hnodup : newroom.players.Nodup)
    (hmem_ok : ∀ a ∈ newroom.players,
      a = acc ∨ ((mapLookup a S1.users).bind (fun u => u.room)) = some rn) :
    Wf {S1 with rooms := mapInsert rn newroom S1.rooms
                users := mapInsert acc {u1 with room := some rn} S1.users} := by
  obtain ⟨hun, hrn, hpn, hmf⟩ := hWf1
  refine ⟨keysNodup_mapInsert hun, keysNodup_mapInsert hrn, ?_, ?_⟩
  · intro p hp
    rcases mem_mapInsert hp with hnew | hold
    · rw [hnew]
      exact hnodup
    · exact hpn p hold
  · intro p hp a ha
    rcases mem_mapInsert hp with hnew | hold
    · subst hnew
      simp only at ha ⊢
      rcases hmem_ok a ha with hae | hbind
      · subst hae
        rw [mapLookup_insert_self]
        simp
      · have hane : a ≠ acc := by
          intro hc
          rw [hc, hu1] at hbind
          simp [hfield] at hbind
        rw [mapLookup_insert_ne acc a _ S1.users hane]
        exact hbind
    · have hb := hmf p hold a ha
      by_cases hae : a = acc
      · subst hae
        rw [hu1] at hb
        simp [hfield] at hb
      · rw [mapLookup_insert_ne acc a _ S1.users hae]
        exact hb

theorem wf_member_unique (S : ServerState) (hWf : Wf S) (acc rn : String)
    (hbind : ((mapLookup acc S.users).bind (fun u => u.room)) = some rn) :
    ∀ rn' room', mapLookup rn' S.rooms = some room' → acc ∈ room'.players →
      rn' = rn := by
  intro rn' room' hl hm
  have hb := hWf.2.2.2 (rn', room') (mapLookup_some_mem hl) acc hm
  rw [hbind] at hb
  simpa using hb.symm

theorem inv6_rooms_insert {S S' : ServerState} {rn : String} {room : Room}
    (hrooms : S'.rooms = mapInsert rn room S.rooms) (hI : Inv6 S)
    (hne : rn ≠ "_" → room.players ≠ []) : Inv6 S' := by
  obtain ⟨hlob, hall⟩ := hI
  constructor
  · rw [hrooms]
    by_cases he : rn = "_"
    · subst he
      simp [mapLookup_insert_self]
    · rw [mapLookup_insert_ne rn "_" _ S.rooms (fun hh => he hh.symm)]
      exact hlob
  · rw [hrooms]
    intro p hp hpne
    rcases mem_mapInsert hp with hnew | hold
    · subst hnew
      simp only at hpne ⊢
      exact hne hpne
    · exact hall p hold hpne

theorem join_wf (now : Int) (acc : String) (h : HState) (S : ServerState)
    (packet : String) (hWf : Wf S) (hacc : (mapLookup acc S.users).isSome)
    (hns : ((mapLookup acc S.users).bind (fun u => u.room)) ≠ some "") :
    Wf (joinBranch now acc h S packet).2.1 := by
  have hWf1 := leave_wf S acc hWf
  have hfield := leave_field_none S acc hns
  have hnm := leave_not_member S acc hWf hns
  have hacc1 : (mapLookup acc (leaveCurrentRoom S acc).1.users).isSome := by
    rw [leave_users_isSome]
    exact hacc
  unfold joinBranch
  cases h4 : mapLookup (normalizeRoomName (pyDrop 2 packet))
      (leaveCurrentRoom S acc).1.rooms with
  | none =>
    simp only [h4]
    exact hWf1
  | some room =>
    simp only [h4]
    cases h5 : mapLookup acc (leaveCurrentRoom S acc).1.users with
    | none =>
      rw [h5] at hacc1
      simp at hacc1
    | some u1 =>
      simp only [h5]
      have hu1field : u1.room = none := by
        rw [h5] at hfield
        simpa using hfield
      have hnotmem := hnm _ _ h4
      have hplayersnd : (room.players ++ [acc]).Nodup := by
        have hnd : room.players.Nodup := hWf1.2.2.1 _ (mapLookup_some_mem h4)
        exact hnd.append (List.nodup_singleton acc)
          ((List.disjoint_singleton).2 hnotmem)
      have hmemok : ∀ a ∈ room.players ++ [acc],
          a = acc ∨ ((mapLookup a (leaveCurrentRoom S acc).1.users).bind
            (fun u => u.room)) = some (normalizeRoomName (pyDrop 2 packet)) := by
        intro a ha
        rcases List.mem_append.1 ha with ha1 | ha1
        · exact Or.inr (hWf1.2.2.2 _ (mapLookup_some_mem h4) a ha1)
        · exact Or.inl (by simpa using ha1)
      simp only [if_neg hnotmem]
      by_cases h6 : normalizeRoomName (pyDrop 2 packet) = "_"
      · simp only [if_pos h6]
        exact joined_state_wf _ acc _ _ u1 hWf1 h5 hu1field hplayersnd hmemok
      · simp only [if_neg h6]
        by_cases h7 : room.roundStart = none
        · simp only [h7, if_pos]
          rw [mapInsert_mapInsert]
          exact joined_state_wf _ acc _ _ u1 hWf1 h5 hu1field hplayersnd hmemok
        · simp only [h7, if_neg]
          exact joined_state_wf _ acc _ _ u1 hWf1 h5 hu1field hplayersnd hmemok

theorem create_wf (now : Int) (acc : String) (h : HState) (S : ServerState)
    (packet : String) (hWf : Wf S) (hacc : (mapLookup acc S.users).isSome)
    (hns : ((mapLookup acc S.users).bind (fun u => u.room)) ≠ some "") :
    Wf (createBranch now acc h S packet).2.1 := by
  have hWf1 := leave_wf S acc hWf
  have hfield := leave_field_none S acc hns
  have hacc1 : (mapLookup acc (leaveCurrentRoom S acc).1.users).isSome := by
    rw [leave_users_isSome]
    exact hacc
  unfold createBranch
  cases h4 : splitOnce ';' (pyDrop 2 packet) with
  | none =>
    simp only [h4]
    exact hWf1
  | some pr1 =>
    simp only [h4]
    cases h5 : splitOnce ';' (pyDrop 3 (pyDrop 2 packet)) with
    | none =>
      simp only [h5]
      exact hWf1
    | some pr2 =>
      simp only [h5]
      cases h6 : mapLookup acc (leaveCurrentRoom S acc).1.users with
      | none =>
        rw [h6] at hacc1
        simp at hacc1
      | some u1 =>
        simp only [h6]
        have hu1field : u1.room = none := by
          rw [h6] at hfield
          simpa using hfield
        exact joined_state_wf _ acc _ _ u1 hWf1 h6 hu1field
          (List.nodup_singleton acc) (fun a ha => Or.inl (by simpa using ha))

theorem join_inv6 (now : Int) (acc : String) (h : HState) (S : ServerState)
    (packet : String) (hI : Inv6 S) :
    Inv6 (joinBranch now acc h S packet).2.1 := by
  have hI1 := leave_inv6 S acc hI
  unfold joinBranch
  cases h4 : mapLookup (normalizeRoomName (pyDrop 2 packet))
      (leaveCurrentRoom S acc).1.rooms with
  | none =>
    simp only [h4]
    exact hI1
  | some room =>
    simp only [h4]
    have hplayers1 : (if acc ∈ room.players then room.players
        else room.players ++ [acc]) ≠ [] := by
      split
      · rename_i hmem
        exact List.ne_nil_of_mem hmem
      · simp
    cases h5 : mapLookup acc (leaveCurrentRoom S acc).1.users with
    | none =>
      by_cases h6 : normalizeRoomName (pyDrop 2 packet) = "_"
      · simp only [h5, if_pos h6]
        exact inv6_rooms_insert rfl hI1 (fun _ => hplayers1)
      · simp only [h5, if_neg h6]
        by_cases h7 : room.roundStart = none
        · simp only [h7, if_pos]
          rw [mapInsert_mapInsert]
          exact inv6_rooms_insert rfl hI1 (fun _ => hplayers1)
        · simp only [h7, if_neg]
          exact inv6_rooms_insert rfl hI1 (fun _ => hplayers1)
    | some u1 =>
      by_cases h6 : normalizeRoomName (pyDrop 2 packet) = "_"
      · simp only [h5, if_pos h6]
        exact inv6_rooms_insert rfl hI1 (fun _ => hplayers1)
      · simp only [h5, if_neg h6]
        by_cases h7 : room.roundStart = none
        · simp only [h7, if_pos]
          rw [mapInsert_mapInsert]
          exact inv6_rooms_insert rfl hI1 (fun _ => hplayers1)
        · simp only [h7, if_neg]
          exact inv6_rooms_insert rfl hI1 (fun _ => hplayers1)

theorem create_inv6 (now : Int) (acc : String) (h : HState) (S : ServerState)
    (packet : String) (hI : Inv6 S) :
    Inv6 (createBranch now acc h S packet).2.1 := by
  have hI1 := leave_inv6 S acc hI
  unfold createBranch
  cases h4 : splitOnce ';' (pyDrop 2 packet) with
  | none =>
    simp only [h4]
    exact hI1
  | some pr1 =>
    simp only [h4]
    cases h5 : splitOnce ';' (pyDrop 3 (pyDrop 2 packet)) with
    | none =>
      simp only [h5]
      exact hI1
    | some pr2 =>
      simp only [h5]
      cases h6 : mapLookup acc (leaveCurrentRoom S acc).1.users with
      | none => exact inv6_rooms_insert rfl hI1 (fun _ => by simp)
      | some u1 => exact inv6_rooms_insert rfl hI1 (fun _ => by simp)

theorem join_success_spec (now : Int) (acc : String) (h : HState)
    (S : ServerState) (packet : String) (hWf : Wf S)
    (hacc : (mapLookup acc S.users).isSome)
    (hns : ((mapLookup acc S.users).bind (fun u => u.room)) ≠ some "")
    (room : Room)
    (h4 : mapLookup (normalizeRoomName (pyDrop 2 packet))
      (leaveCurrentRoom S acc).1.rooms = some room) :
    ((mapLookup acc (joinBranch now acc h S packet).2.1.users).bind
        (fun u => u.room)) = some (normalizeRoomName (pyDrop 2 packet)) ∧
    ∃ room', mapLookup (normalizeRoomName (pyDrop 2 packet))
        (joinBranch now acc h S packet).2.1.rooms = some room'
      ∧ acc ∈ room'.players := by
  have hnm := leave_not_member S acc hWf hns
  have hacc1 : (mapLookup acc (leaveCurrentRoom S acc).1.users).isSome := by
    rw [leave_users_isSome]
    exact hacc
  unfold joinBranch
  cases h5 : mapLookup acc (leaveCurrentRoom S acc).1.users with
  | none =>
    rw [h5] at hacc1
    simp at hacc1
  | some u1 =>
    have hnotmem := hnm _ _ h4
    simp only [h4, h5, if_neg hnotmem]
    by_cases h6 : normalizeRoomName (pyDrop 2 packet) = "_"
    · simp only [if_pos h6]
      refine ⟨by rw [mapLookup_insert_self]; simp, ?_⟩
      refine ⟨_, by rw [mapLookup_insert_self], ?_⟩
      simp
    · simp only [if_neg h6]
      split
      · rw [mapInsert_mapInsert]
        refine ⟨by rw [mapLookup_insert_self]; simp, ?_⟩
        refine ⟨_, by rw [mapLookup_insert_self], ?_⟩
        simp
      · refine ⟨by rw [mapLookup_insert_self]; simp, ?_⟩
        refine ⟨_, by rw [mapLookup_insert_self], ?_⟩
        simp

theorem create_success_spec (now : Int) (acc : String) (h : HState)
    (S : ServerState) (packet : String)
    (hacc : (mapLookup acc S.users).isSome) (pr1 pr2 : String × String)
    (h4 : splitOnce ';' (pyDrop 2 packet) = some pr1)
    (h5 : splitOnce ';' (pyDrop 3 (pyDrop 2 packet)) = some pr2) :
    ((mapLookup acc (createBranch now acc h S packet).2.1.users).bind
        (fun u => u.room)) = some (normalizeRoomName pr2.1) ∧
    ∃ room', mapLookup (normalizeRoomName pr2.1)
        (createBranch now acc h S packet).2.1.rooms = some room'
      ∧ acc ∈ room'.players := by
  have hacc1 : (mapLookup acc (leaveCurrentRoom S acc).1.users).isSome := by
    rw [leave_users_isSome]
    exact hacc
  unfold createBranch
  cases h6 : mapLookup acc (leaveCurrentRoom S acc).1.users with
  | none =>
    rw [h6] at hacc1
    simp at hacc1
  | some u1 =>
    simp only [h4, h5, h6]
    refine ⟨by rw [mapLookup_insert_self]; simp, ?_⟩
    refine ⟨_, by rw [mapLookup_insert_self], ?_⟩
    simp

theorem isSome_of_not_isNone {α : Type} {o : Option α} (h : o.isNone = false) :
    o.isSome = true := by
  cases o <;> simp_all

theorem authed_wf (md5 : String → String) (now : Int) (acc : String)
    (h : HState) (S : ServerState) (packet : String) (hWf : Wf S)
    (hacc : (mapLookup acc S.users).isSome)
    (hns : ((mapLookup acc S.users).bind (fun u => u.room)) ≠ some "") :
    Wf (authedDispatch md5 now acc h S packet).2.1 := by
  unfold authedDispatch
  by_cases c1 : strStarts "03" packet = true
  · rw [if_pos c1]
    exact join_wf _ _ _ _ _ hWf hacc hns
  rw [if_neg c1]
  by_cases c2 : packet = "01"
  · rw [if_pos c2]
    exact hWf
  rw [if_neg c2]
  by_cases c3 : strStarts "04" packet = true
  · rw [if_pos c3]
    exact hWf
  rw [if_neg c3]
  by_cases c4 : strStarts "02" packet = true
  · rw [if_pos c4]
    exact create_wf _ _ _ _ _ hWf hacc hns
  rw [if_neg c4]
  by_cases c5 : strStarts "9?" packet = true
  · rw [if_pos c5]
    exact hWf
  rw [if_neg c5]
  by_cases c6 : (strStarts "1" packet || strStarts "8" packet || strStarts "4" packet) = true
  · rw [if_pos c6]
    exact hWf
  rw [if_neg c6]
  by_cases c7 : strStarts "6" packet = true
  · rw [if_pos c7]
    exact hWf
  rw [if_neg c7]
  by_cases c8 : strStarts "7" packet = true
  · rw [if_pos c8]
    exact hWf
  rw [if_neg c8]
  by_cases c9 : (strStarts "0k" packet || strStarts "0q" packet) = true
  · rw [if_pos c9]
    exact hWf
  rw [if_neg c9]
  by_cases c10 : (strStarts "9" packet && !(strStarts "9?" packet)) = true
  · rw [if_pos c10]
    exact hWf
  rw [if_neg c10]
  by_cases c11 : strStarts "0d" packet = true
  · rw [if_pos c11]
    exact hWf
  rw [if_neg c11]
  by_cases c12 : packet = "p"
  · rw [if_pos c12]
    exact hWf
  rw [if_neg c12]
  by_cases c13 : strStarts "00" packet = true
  · rw [if_pos c13]
    exact hWf
  rw [if_neg c13]
  exact hWf

theorem authed_inv6 (md5 : String → String) (now : Int) (acc : String)
    (h : HState) (S : ServerState) (packet : String) (hI : Inv6 S) :
    Inv6 (authedDispatch md5 now acc h S packet).2.1 := by
  unfold authedDispatch
  by_cases c1 : strStarts "03" packet = true
  · rw [if_pos c1]
    exact join_inv6 _ _ _ _ _ hI
  rw [if_neg c1]
  by_cases c2 : packet = "01"
  · rw [if_pos c2]
    exact hI
  rw [if_neg c2]
  by_cases c3 : strStarts "04" packet = true
  · rw [if_pos c3]
    exact hI
  rw [if_neg c3]
  by_cases c4 : strStarts "02" packet = true
  · rw [if_pos c4]
    exact create_inv6 _ _ _ _ _ hI
  rw [if_neg c4]
  by_cases c5 : strStarts "9?" packet = true
  · rw [if_pos c5]
    exact hI
  rw [if_neg c5]
  by_cases c6 : (strStarts "1" packet || strStarts "8" packet || strStarts "4" packet) = true
  · rw [if_pos c6]
    exact hI
  rw [if_neg c6]
  by_cases c7 : strStarts "6" packet = true
  · rw [if_pos c7]
    exact hI
  rw [if_neg c7]
  by_cases c8 : strStarts "7" packet = true
  · rw [if_pos c8]
    exact hI
  rw [if_neg c8]
  by_cases c9 : (strStarts "0k" packet || strStarts "0q" packet) = true
  · rw [if_pos c9]
    exact hI
  rw [if_neg c9]
  by_cases c10 : (strStarts "9" packet && !(strStarts "9?" packet)) = true
  · rw [if_pos c10]
    exact hI
  rw [if_neg c10]
  by_cases c11 : strStarts "0d" packet = true
  · rw [if_pos c11]
    exact hI
  rw [if_neg c11]
  by_cases c12 : packet = "p"
  · rw [if_pos c12]
    exact hI
  rw [if_neg c12]
  by_cases c13 : strStarts "00" packet = true
  · rw [if_pos c13]
    exact hI
  rw [if_neg c13]
  exact hI

theorem handle_wf (md5 : String → String) (now : Int) (h : HState)
    (S : ServerState) (packet : String) (hWf : Wf S)
    (hnotauth : strStarts "09" packet = false)
    (hns : ∀ a, h.accountId = some a →
      ((mapLookup a S.users).bind (fun u => u.room)) ≠ some "") :
    Wf (handlePacket md5 now h S packet).2.1 := by
  unfold handlePacket
  split
  · exact hWf
  · split
    · exact hWf
    · split
      · exact cache_wf _ _ _ hWf
      · split
        · rename_i hc
          rw [hnotauth] at hc
          simp at hc
        · split
          · exact hWf
          · rename_i acc heq
            split
            · exact hWf
            · rename_i hnone
              exact authed_wf _ _ _ _ _ _ hWf
                (isSome_of_not_isNone (Bool.eq_false_iff.2 hnone)) (hns acc heq)

theorem handle_inv6 (md5 : String → String) (now : Int) (h : HState)
    (S : ServerState) (packet : String) (hI : Inv6 S) :
    Inv6 (handlePacket md5 now h S packet).2.1 := by
  unfold handlePacket
  split
  · exact hI
  · split
    · exact hI
    · split
      · exact inv6_of_rooms_eq (cache_rooms _ _ _) hI
      · split
        · exact inv6_of_rooms_eq (auth_rooms _ _ _ _) hI
        · split
          · exact hI
          · rename_i acc heq
            split
            · exact hI
            · exact authed_inv6 _ _ _ _ _ _ hI

/-- Reaching the authenticated chain of the dispatcher. -/
theorem handle_to_authed (md5 : String → String) (now : Int) (h : HState)
    (S : ServerState) (acc : String) (packet : String)
    (hacc : h.accountId = some acc)
    (hu : (mapLookup acc S.users).isNone = false)
    (hne : packet ≠ "") (hpol : packet ≠ "<policy-file-request/>")
    (h18 : (strStarts "1" packet || strStarts "8" packet) = false)
    (h09 : strStarts "09" packet = false) :
    handlePacket md5 now h S packet = authedDispatch md5 now acc h S packet := by
  unfold handlePacket
  rw [if_neg hne, if_neg hpol,
    if_neg (show ¬ (strStarts "1" packet || strStarts "8" packet) = true by
      simp [h18]),
    if_neg (show ¬ strStarts "09" packet = true by simp [h09]), hacc]
  show (if (mapLookup acc S.users).isNone = true then (h, S, ([] : List Out))
      else authedDispatch md5 now acc h S packet)
    = authedDispatch md5 now acc h S packet
  rw [if_neg (show ¬ (mapLookup acc S.users).isNone = true by simp [hu])]

/-- Packets starting `'1'` or `'8'` always land in the caching branch. -/
theorem handle_cache (md5 : String → String) (now : Int) (h : HState)
    (S : ServerState) (packet : String) (c : Char) (t : List Char)
    (hdata : packet.data = c :: t) (hc : c = '1' ∨ c = '8') :
    handlePacket md5 now h S packet = cacheStateBranch h S packet := by
  have hne := ne_empty_of_data hdata
  have hpol : packet ≠ "<policy-file-request/>" :=
    ne_of_data_head hdata rfl (by rcases hc with h1 | h1 <;> subst h1 <;> decide)
  have h18 : (strStarts "1" packet || strStarts "8" packet) = true := by
    rcases hc with h1 | h1 <;> subst h1
    · have : strStarts "1" packet = true :=
        strStarts_true_of_data (p := "1") (by simpa using hdata)
      simp [this]
    · have : strStarts "8" packet = true :=
        strStarts_true_of_data (p := "8") (by simpa using hdata)
      simp [this]
  unfold handlePacket
  rw [if_neg hne, if_neg hpol, if_pos (by simp [h18])]

/-- C8 counterexample: from the boot allocator, allocate for `"a"`, `"b"`,
`"c"` and release `"b"`: the slots in use are `{1, 3}` while `2` is free,
so the in-use set is not the minimal set `{1, 2}` for an occupancy of 2. -/
theorem c8_minimal_slots_counterexample :
    (applyAllocOps initSlots
        [.alloc "a", .alloc "b", .alloc "c", .rel "b"]).used.map (fun p => p.2)
        = [1, 3] ∧
    (applyAllocOps initSlots
        [.alloc "a", .alloc "b", .alloc "c", .rel "b"]).used.length = 2 ∧
    (2 : ℕ) ∈ (applyAllocOps initSlots
        [.alloc "a", .alloc "b", .alloc "c", .rel "b"]).free ∧
    (2 : ℕ) ∉ (applyAllocOps initSlots
        [.alloc "a", .alloc "b", .alloc "c", .rel "b"]).used.map (fun p => p.2) := by
  have a1 : initSlots.allocate "a"
      = some (1, ⟨(Finset.Icc 1 999).erase 1, [("a", 1)]⟩) :=
    allocate_step _ _ 1 (Finset.mem_Icc.2 (by omega))
      (fun b hb => (Finset.mem_Icc.1 hb).1)
  have a2 : (⟨(Finset.Icc 1 999).erase 1, [("a", 1)]⟩ : SlotAllocator).allocate "b"
      = some (2, ⟨((Finset.Icc 1 999).erase 1).erase 2, [("a", 1), ("b", 2)]⟩) :=
    allocate_step _ _ 2
      (Finset.mem_erase.2 ⟨by omega, Finset.mem_Icc.2 (by omega)⟩)
      (fun b hb => by
        rw [Finset.mem_erase, Finset.mem_Icc] at hb
        omega)
  have a3 : (⟨((Finset.Icc 1 999).erase 1).erase 2,
        [("a", 1), ("b", 2)]⟩ : SlotAllocator).allocate "c"
      = some (3, ⟨(((Finset.Icc 1 999).erase 1).erase 2).erase 3,
          [("a", 1), ("b", 2), ("c", 3)]⟩) :=
    allocate_step _ _ 3
      (by
        rw [Finset.mem_erase, Finset.mem_erase, Finset.mem_Icc]
        omega)
      (fun b hb => by
        rw [Finset.mem_erase, Finset.mem_erase, Finset.mem_Icc] at hb
        omega)
  have e : applyAllocOps initSlots [.alloc "a", .alloc "b", .alloc "c", .rel "b"]
      = ⟨insert 2 ((((Finset.Icc 1 999).erase 1).erase 2).erase 3),
          [("a", 1), ("c", 3)]⟩ := by
    simp only [applyAllocOps, List.foldl, applyAllocOp, a1, a2, a3]
    rfl
  rw [e]
  refine ⟨rfl, rfl, Finset.mem_insert_self 2 _, by decide⟩

/-- C8 (amended): `allocate` returns the smallest currently-free slot, marks
it used and records the owner, and fails (a raised `ValueError`, there is no
`ExhaustedError` class) when the pool is exhausted; however, after releases
the set of slots in use need not be the minimal prefix — only each new
allocation is minimal. -/
theorem c8_allocate_amended :
    ∀ (A : SlotAllocator) (acc : String),
      (∀ hne : A.free.Nonempty,
        A.allocate acc = some (A.free.min' hne,
          ⟨A.free.erase (A.free.min' hne), mapInsert acc (A.free.min' hne) A.used⟩) ∧
        A.free.min' hne ∈ A.free ∧
        (∀ b ∈ A.free, A.free.min' hne ≤ b) ∧
        mapLookup acc (mapInsert acc (A.free.min' hne) A.used)
          = some (A.free.min' hne)) ∧
      (A.free = ∅ → A.allocate acc = none) := by
  intro A acc
  constructor
  · intro hne
    refine ⟨?_, A.free.min'_mem hne, fun b hb => A.free.min'_le b hb,
      mapLookup_insert_self _ _ _⟩
    unfold SlotAllocator.allocate
    rw [dif_pos hne]
  · intro hemp
    unfold SlotAllocator.allocate
    rw [dif_neg (by simp [hemp])]

theorem c8_allocate_amended_witness :
    (⟨{1, 2}, []⟩ : SlotAllocator).allocate "a"
      = some (({1, 2} : Finset ℕ).min' ⟨1, by decide⟩,
          ⟨({1, 2} : Finset ℕ).erase (({1, 2} : Finset ℕ).min' ⟨1, by decide⟩),
           mapInsert "a" (({1, 2} : Finset ℕ).min' ⟨1, by decide⟩) []⟩) ∧
    (⟨(∅ : Finset ℕ), []⟩ : SlotAllocator).allocate "a" = none := by
  constructor
  · exact ((c8_allocate_amended ⟨{1, 2}, []⟩ "a").1 ⟨1, by decide⟩).1
  · exact (c8_allocate_amended ⟨∅, []⟩ "a").2 rfl

/-- C10: a second `allocate` for an account that already holds a slot takes
another slot from the free pool and overwrites the account's record; the
old slot is afterwards in neither the free pool nor the owner map, and no
sequence of allocator calls ever returns it to the free pool. -/
theorem c10_double_allocate_leak :
    ∀ (A : SlotAllocator) (acc : String) (s1 s2 : ℕ) (A' : SlotAllocator),
      (keysOf A.used).Nodup →
      mapLookup acc A.used = some s1 →
      s1 ∉ A.free →
      (∀ p ∈ A.used, p.2 = s1 → p.1 = acc) →
      A.allocate acc = some (s2, A') →
      s2 ∈ A.free ∧ A'.free = A.free.erase s2 ∧
      mapLookup acc A'.used = some s2 ∧ s1 ≠ s2 ∧
      slotLeaked A' s1 ∧
      ∀ ops : List AllocOp, s1 ∉ (applyAllocOps A' ops).free := by
  intro A acc s1 s2 A' hnod hlook hfree hinj halloc
  obtain ⟨hne, hs2, hA'⟩ := allocate_eq_some halloc
  subst hA'
  have hs2mem : s2 ∈ A.free := hs2 ▸ A.free.min'_mem hne
  have hs1s2 : s1 ≠ s2 := fun hc => hfree (hc ▸ hs2mem)
  have hleak : slotLeaked ⟨A.free.erase s2, mapInsert acc s2 A.used⟩ s1 := by
    constructor
    · intro hc
      exact hfree (Finset.mem_of_mem_erase hc)
    · intro p hp
      rcases mem_mapInsert_of_nodup hnod hp with hnew | hold
      · rw [hnew]
        exact fun hc => hs1s2 hc.symm
      · intro hc
        exact hold.2 (hinj p hold.1 hc)
  exact ⟨hs2mem, rfl, mapLookup_insert_self _ _ _, hs1s2, hleak,
    fun ops => (slotLeaked_applyAllocOps hleak ops).1⟩

theorem c10_double_allocate_leak_witness :
    slotLeaked ⟨{3}, [("a", 2)]⟩ 1 ∧
    (1 : ℕ) ∉ (applyAllocOps ⟨{3}, [("a", 2)]⟩ [.rel "a", .alloc "b"]).free := by
  have h := c10_double_allocate_leak ⟨{2, 3}, [("a", 1)]⟩ "a" 1 2 ⟨{3}, [("a", 2)]⟩
    (by decide) (by decide) (by decide) (by decide) (by decide)
  exact ⟨h.2.2.2.2.1, h.2.2.2.2.2 [.rel "a", .alloc "b"]⟩

theorem feed_spec :
    ∀ (reads : List (List Char)) (buf : List Char), nulChar ∉ buf →
      buf ++ reads.join
          = ((feedReads buf reads).1.map (· ++ [nulChar])).join
            ++ (feedReads buf reads).2 ∧
      nulChar ∉ (feedReads buf reads).2 ∧
      ∀ p ∈ (feedReads buf reads).1, nulChar ∉ p := by
  intro reads
  induction reads with
  | nil =>
    intro buf hb
    refine ⟨by simp [feedReads], by simpa [feedReads] using hb, by simp [feedReads]⟩
  | cons r rs ih =>
    intro buf hb
    obtain ⟨e1, e2, e3⟩ := extractPackets_spec (buf ++ r)
    obtain ⟨f1, f2, f3⟩ := ih (extractPackets (buf ++ r)).2 e2
    simp only [feedReads]
    refine ⟨?_, f2, ?_⟩
    · calc buf ++ (r :: rs).join = (buf ++ r) ++ rs.join := by
            simp [List.append_assoc]
        _ = (((extractPackets (buf ++ r)).1.map (· ++ [nulChar])).join
              ++ (extractPackets (buf ++ r)).2) ++ rs.join := by rw [← e1]
        _ = ((extractPackets (buf ++ r)).1.map (· ++ [nulChar])).join
              ++ ((extractPackets (buf ++ r)).2 ++ rs.join) := by
            simp [List.append_assoc]
        _ = ((extractPackets (buf ++ r)).1.map (· ++ [nulChar])).join
              ++ (((feedReads (extractPackets (buf ++ r)).2 rs).1.map
                    (· ++ [nulChar])).join
                  ++ (feedReads (extractPackets (buf ++ r)).2 rs).2) := by rw [f1]
        _ = (((extractPackets (buf ++ r)).1
                ++ (feedReads (extractPackets (buf ++ r)).2 rs).1).map
              (· ++ [nulChar])).join
              ++ (feedReads (extractPackets (buf ++ r)).2 rs).2 := by
            simp [List.append_assoc]
    · intro p hp
      rcases List.mem_append.1 hp with h1 | h1
      · exact e3 p h1
      · exact f3 p h1

/-- C4: over any sequence of socket reads, the de-framing loop processes
exactly the terminator-delimited packets of the concatenated stream, in
order: the stream is the processed packets (each re-terminated) followed by
the retained partial packet, the retained buffer never contains a
terminator (no packet is processed before its terminator arrives), each
processed packet is terminator-free, and all packets completed by one read
are processed before the next read is consumed. -/
theorem c4_stream_deframing :
    ∀ (reads : List (List Char)),
      reads.join = ((feedReads [] reads).1.map (· ++ [nulChar])).join
          ++ (feedReads [] reads).2 ∧
      nulChar ∉ (feedReads [] reads).2 ∧
      (∀ p ∈ (feedReads [] reads).1, nulChar ∉ p) ∧
      (∀ (buf r : List Char) (rs : List (List Char)),
        feedReads buf (r :: rs)
          = ((extractPackets (buf ++ r)).1
                ++ (feedReads (extractPackets (buf ++ r)).2 rs).1,
              (feedReads (extractPackets (buf ++ r)).2 rs).2)) := by
  intro reads
  obtain ⟨e1, e2, e3⟩ := feed_spec reads [] (by simp)
  exact ⟨by simpa using e1, e2, e3, fun buf r rs => rfl⟩

theorem c4_stream_deframing_witness :
    ([['a', nulChar, 'b'], ['c', nulChar]] : List (List Char)).join
      = ((feedReads [] [['a', nulChar, 'b'], ['c', nulChar]]).1.map
          (· ++ [nulChar])).join
        ++ (feedReads [] [['a', nulChar, 'b'], ['c', nulChar]]).2 ∧
    nulChar ∉ (feedReads [] [['a', nulChar, 'b'], ['c', nulChar]]).2 := by
  have h := c4_stream_deframing [['a', nulChar, 'b'], ['c', nulChar]]
  exact ⟨h.1, h.2.1⟩

/-- C1 (code bug): in `handle_packet` the caching branch
`if packet.startswith(("1", "8"))` heads the `elif` chain, so a movement
packet from an authenticated room member produces NO output at all — it is
only cached as the sender's last state — even though a peer is present,
while the (unreachable for `"1"`/`"8"`) helper `relay_state_to_room` would
have produced exactly the claim's slot-injected forward to the peer. -/
theorem c1_movement_cached_not_forwarded :
    (handlePacket md5c 5 h0fix S2fix "10575001250000").2.2 = [] ∧
    (handlePacket md5c 5 h0fix S2fix "10575001250000").1 = h0fix ∧
    ((mapLookup "1"
        (handlePacket md5c 5 h0fix S2fix "10575001250000").2.1.users).bind
        (fun u => u.lastState)) = some "10575001250000" ∧
    (∃ room, mapLookup "A" S2fix.rooms = some room ∧ "2" ∈ room.players) ∧
    relayStateToRoom S2fix "1" "A" "10575001250000"
      = [mkAcct "2" ("10010575001250000" ++ nulStr)] := by
  refine ⟨rfl, rfl, rfl, ⟨⟨"A", "FG", ["1", "2"], some 0, 600⟩, rfl, by decide⟩, ?_⟩
  decide

theorem isPrefixOf_exists :
    ∀ {l1 l2 : List Char}, l1.isPrefixOf l2 = true → ∃ t, l2 = l1 ++ t := by
  intro l1
  induction l1 with
  | nil => exact fun h => ⟨_, rfl⟩
  | cons a as ih =>
    intro l2 h
    cases l2 with
    | nil => simp [List.isPrefixOf] at h
    | cons b bs =>
      simp only [List.isPrefixOf, Bool.and_eq_true, beq_iff_eq] at h
      obtain ⟨t, ht⟩ := ih h.2
      exact ⟨t, by rw [ht, h.1]; simp⟩

theorem strStarts_exists {p s : String} (h : strStarts p s = true) :
    ∃ t, s.data = p.data ++ t := by
  unfold strStarts at h
  exact isPrefixOf_exists h

theorem join_fail_state (now : Int) (acc : String) (h : HState)
    (S : ServerState) (packet : String)
    (hmiss : mapLookup (normalizeRoomName (pyDrop 2 packet))
      (leaveCurrentRoom S acc).1.rooms = none) :
    (joinBranch now acc h S packet).2.1 = (leaveCurrentRoom S acc).1 := by
  unfold joinBranch
  simp only [hmiss]

/-- C2 counterexample: a session in room `"A"` that requests joining the
nonexistent room `"B"` ends up in NO room at all — its room field is
cleared and it is removed from `"A"`'s member set — whereas before the
request it was a member of `"A"`. -/
theorem c2_join_nonexistent_counterexample :
    ((mapLookup "1" (handlePacket md5c 5 h0fix S2fix "03B").2.1.users).bind
        (fun u => u.room)) = none ∧
    (∃ room, mapLookup "A" (handlePacket md5c 5 h0fix S2fix "03B").2.1.rooms
        = some room ∧ "1" ∉ room.players) ∧
    ((mapLookup "1" S2fix.users).bind (fun u => u.room)) = some "A" ∧
    mapLookup "B" S2fix.rooms = none := by
  refine ⟨rfl, ⟨⟨"A", "FG", ["2"], some 0, 600⟩, rfl, by decide⟩, rfl, rfl⟩

/-- C2 (amended): a join of a nonexistent room is rejected and the request
dropped, but — provided the session's recorded room name is not the falsy
empty string, on which `leave_current_room` early-returns — the session has
by then already left its previous room: after the rejected request the
session's room field is cleared and it is a member of no room (the handler
identity is unchanged and the state stays well-formed). -/
theorem c2_join_nonexistent_amended :
    ∀ (md5 : String → String) (now : Int) (h : HState) (S : ServerState)
      (acc packet : String),
      Wf S → h.accountId = some acc → (mapLookup acc S.users).isNone = false →
      ((mapLookup acc S.users).bind (fun u => u.room)) ≠ some "" →
      strStarts "03" packet = true →
      mapLookup (normalizeRoomName (pyDrop 2 packet)) S.rooms = none →
      (handlePacket md5 now h S packet).1 = h ∧
      ((mapLookup acc (handlePacket md5 now h S packet).2.1.users).bind
          (fun u => u.room)) = none ∧
      (∀ rn room, mapLookup rn (handlePacket md5 now h S packet).2.1.rooms
          = some room → acc ∉ room.players) ∧
      Wf (handlePacket md5 now h S packet).2.1 := by
  intro md5 now h S acc packet hWf hacc hu hns h03 hnoroom
  obtain ⟨t, hdata⟩ := strStarts_exists h03
  rw [show ("03" : String).data = ['0', '3'] from rfl] at hdata
  have hauth := handle_to_authed md5 now h S acc packet hacc hu
    (ne_empty_of_data hdata) (ne_of_data_head hdata rfl (by decide))
    (by
      rw [strStarts_false_head (p := "1") rfl hdata (by decide),
        strStarts_false_head (p := "8") rfl hdata (by decide)]
      rfl)
    (strStarts_false_head2 (p := "09") rfl hdata (by decide))
  rw [hauth]
  unfold authedDispatch
  rw [if_pos h03]
  have hmiss := leave_rooms_none S acc _ hnoroom
  refine ⟨join_h _ _ _ _ _, ?_, ?_, ?_⟩
  · rw [join_fail_state now acc h S packet hmiss]
    exact leave_field_none S acc hns
  · rw [join_fail_state now acc h S packet hmiss]
    exact leave_not_member S acc hWf hns
  · rw [join_fail_state now acc h S packet hmiss]
    exact leave_wf S acc hWf

theorem c2_join_nonexistent_amended_witness :
    Wf S2fix ∧
    ((mapLookup "1" S2fix.users).bind (fun u => u.room)) ≠ some "" ∧
    ((mapLookup "1" (handlePacket md5c 5 h0fix S2fix "03B").2.1.users).bind
        (fun u => u.room)) = none ∧
    Wf (handlePacket md5c 5 h0fix S2fix "03B").2.1 := by
  have h := c2_join_nonexistent_amended md5c 5 h0fix S2fix "1" "03B"
    (by decide) rfl (by decide) (by decide) (by decide) rfl
  exact ⟨by decide, by decide, h.2.1, h.2.2.2⟩

theorem bind_some_isSome {α β : Type} {o : Option α} {f : α → Option β}
    {x : β} (h : o.bind f = some x) : o.isSome = true := by
  cases o
  · simp at h
  · rfl

/-- C5 counterexample: the chat branch calls `relay_chat9_to_room` with
`include_self=True`, so the sender DOES re-receive its own room-chat line. -/
theorem c5_chat_echo_counterexample :
    mkAcct "1" ("M001" ++ "9xyz" ++ nulStr)
      ∈ (handlePacket md5c 5 h0fix S2fix "9xyz").2.2 ∧
    h0fix.accountId = some "1" := by
  constructor
  · decide
  · rfl

/-- C5 (amended): a room chat packet `9...` (not the ping `9?`) from a
session in room `rn` is wrapped as `M<slot><packet>` and delivered to EVERY
member of the room, the sender included (`include_self=True`); the state is
unchanged. -/
theorem c5_chat_broadcast_amended :
    ∀ (md5 : String → String) (now : Int) (h : HState) (S : ServerState)
      (acc packet : String) (u : UserRec) (rn : String) (room : Room)
      (c : Char) (t : List Char),
      Wf S → h.accountId = some acc → mapLookup acc S.users = some u →
      u.room = some rn → rn ≠ "" → mapLookup rn S.rooms = some room →
      packet.data = '9' :: c :: t → ¬ c = '?' →
      (handlePacket md5 now h S packet).1 = h ∧
      (handlePacket md5 now h S packet).2.1 = S ∧
      (handlePacket md5 now h S packet).2.2
        = room.players.map (fun p =>
            mkAcct p ("M" ++ wireIdOf S acc ++ packet ++ nulStr)) := by
  intro md5 now h S acc packet u rn room c t hWf hacc hu hur hrn hroom hdata hc
  have hune : (mapLookup acc S.users).isNone = false := by
    rw [hu]
    rfl
  have hauth := handle_to_authed md5 now h S acc packet hacc hune
    (ne_empty_of_data hdata) (ne_of_data_head hdata rfl (by decide))
    (by
      rw [strStarts_false_head (p := "1") rfl hdata (by decide),
        strStarts_false_head (p := "8") rfl hdata (by decide)]
      rfl)
    (strStarts_false_head (p := "09") rfl hdata (by decide))
  rw [hauth]
  unfold authedDispatch
  rw [if_neg (show ¬ strStarts "03" packet = true by
      rw [strStarts_false_head (p := "03") rfl hdata (by decide)]; simp),
    if_neg (ne_of_data_head hdata (show ("01" : String).data = '0' :: ['1'] from rfl)
      (by decide)),
    if_neg (show ¬ strStarts "04" packet = true by
      rw [strStarts_false_head (p := "04") rfl hdata (by decide)]; simp),
    if_neg (show ¬ strStarts "02" packet = true by
      rw [strStarts_false_head (p := "02") rfl hdata (by decide)]; simp),
    if_neg (show ¬ strStarts "9?" packet = true by
      rw [strStarts_false_head2 (p := "9?") rfl hdata (fun hh => hc hh.symm)]
      simp),
    if_neg (show ¬ (strStarts "1" packet || strStarts "8" packet
        || strStarts "4" packet) = true by
      rw [strStarts_false_head (p := "1") rfl hdata (by decide),
        strStarts_false_head (p := "8") rfl hdata (by decide),
        strStarts_false_head (p := "4") rfl hdata (by decide)]
      simp),
    if_neg (show ¬ strStarts "6" packet = true by
      rw [strStarts_false_head (p := "6") rfl hdata (by decide)]; simp),
    if_neg (show ¬ strStarts "7" packet = true by
      rw [strStarts_false_head (p := "7") rfl hdata (by decide)]; simp),
    if_neg (show ¬ (strStarts "0k" packet || strStarts "0q" packet) = true by
      rw [strStarts_false_head (p := "0k") rfl hdata (by decide),
        strStarts_false_head (p := "0q") rfl hdata (by decide)]
      simp),
    if_pos (show (strStarts "9" packet && !(strStarts "9?" packet)) = true by
      rw [strStarts_true_of_data (p := "9") (by simpa using hdata),
        strStarts_false_head2 (p := "9?") rfl hdata (fun hh => hc hh.symm)]
      rfl)]
  refine ⟨rfl, rfl, ?_⟩
  show chatBranch S acc packet = _
  unfold chatBranch relayChat9ToRoom
  rw [hu]
  simp only [Option.bind, hur]
  rw [if_neg hrn, if_neg hrn, hroom]
  simp only [Bool.true_or, List.filter_true]
  exact filterMap_guard_eq_map room.players _ _ (fun p hp =>
    bind_some_isSome (hWf.2.2.2 (rn, room) (mapLookup_some_mem hroom) p hp))

theorem c5_chat_broadcast_amended_witness :
    (handlePacket md5c 5 h0fix S2fix "9xyz").2.2
      = [mkAcct "1" ("M" ++ wireIdOf S2fix "1" ++ "9xyz" ++ nulStr),
         mkAcct "2" ("M" ++ wireIdOf S2fix "1" ++ "9xyz" ++ nulStr)] := by
  have h := c5_chat_broadcast_amended md5c 5 h0fix S2fix "1" "9xyz"
    ⟨"a", some "A", 1, none⟩ "A" ⟨"A", "FG", ["1", "2"], some 0, 600⟩ 'x' ['y', 'z']
    (by decide) rfl rfl rfl (by decide) rfl rfl (by decide)
  rw [h.2.2]
  rfl

theorem handle_to_auth (md5 : String → String) (now : Int) (h : HState)
    (S : ServerState) (packet : String) (t : List Char)
    (hdata : packet.data = '0' :: '9' :: t) :
    handlePacket md5 now h S packet = authBranch md5 h S packet := by
  unfold handlePacket
  rw [if_neg (ne_empty_of_data hdata),
    if_neg (ne_of_data_head hdata rfl (by decide)),
    if_neg (show ¬ (strStarts "1" packet || strStarts "8" packet) = true by
      rw [strStarts_false_head (p := "1") rfl hdata (by decide),
        strStarts_false_head (p := "8") rfl hdata (by decide)]
      simp),
    if_pos (show strStarts "09" packet = true from
      strStarts_true_of_data (by simpa using hdata))]

/-- C7 counterexample: a `09a;b` authentication request on the
already-authenticated session of account `"1"` (slot 1) is NOT rejected:
the server answers with a fresh login acknowledgment, allocates a fresh
slot (2) and overwrites the directory entry. -/
theorem c7_reauth_counterexample :
    h0fix.accountId = some "1" ∧
    ((mapLookup "1" S0fix.users).map (fun u => u.slot)) = some 1 ∧
    ((mapLookup "1" (handlePacket md5c 0 h0fix S0fix "09a;b").2.1.users).map
        (fun u => u.slot)) = some 2 ∧
    mkSelf ("10;1;1;a;a;H;1" ++ nulStr)
      ∈ (handlePacket md5c 0 h0fix S0fix "09a;b").2.2 := by
  have halloc : S0fix.slots.allocate "1"
      = some (2, ⟨((Finset.Icc 1 999).erase 1).erase 2, [("1", 2)]⟩) :=
    allocate_step _ _ 2
      (Finset.mem_erase.2 ⟨by omega, Finset.mem_Icc.2 (by omega)⟩)
      (fun b hb => by
        simp only [S0fix, authedSlots, Finset.mem_erase, Finset.mem_Icc] at hb
        omega)
  have hd : handlePacket md5c 0 h0fix S0fix "09a;b"
      = authBranch md5c h0fix S0fix "09a;b" :=
    handle_to_auth md5c 0 h0fix S0fix "09a;b" _ rfl
  obtain ⟨e1, e2, e3⟩ := authBranch_existing md5c h0fix S0fix "09a;b"
    "a" "b" "H" "1" 2 ⟨((Finset.Icc 1 999).erase 1).erase 2, [("1", 2)]⟩
    rfl rfl rfl halloc
  refine ⟨rfl, rfl, ?_, ?_⟩
  · rw [hd, e2]
    rfl
  · rw [hd]
    exact e3

/-- C7 (amended): an authentication request on an already-authenticated
session is processed like any other: the handshake re-runs, a fresh slot is
allocated for the account, and the session's directory entry is overwritten
with a record whose room field is `None` — nothing is rejected. -/
theorem c7_reauth_accepted_amended :
    ∀ (md5 : String → String) (now : Int) (h : HState) (S : ServerState)
      (acc packet username password stored accId : String) (s : ℕ)
      (A' : SlotAllocator) (t : List Char),
      h.accountId = some acc →
      (mapLookup acc S.users).isSome = true →
      packet.data = '0' :: '9' :: t →
      splitOnce ';' (pyDrop 2 packet) = some (username, password) →
      mapLookup username S.userDB = some (stored, accId) →
      md5 password = stored →
      S.slots.allocate accId = some (s, A') →
      (handlePacket md5 now h S packet).1 = ⟨some username, some accId⟩ ∧
      (handlePacket md5 now h S packet).2.1
        = {S with slots := A'
                  users := mapInsert accId ⟨username, none, s, none⟩ S.users} ∧
      mkSelf ("10;1;" ++ accId ++ ";" ++ username ++ ";" ++ username ++ ";"
          ++ md5 password ++ ";1" ++ nulStr)
        ∈ (handlePacket md5 now h S packet).2.2 := by
  intro md5 now h S acc packet username password stored accId s A' t
    hacc hu hdata hsplit hdb hhash halloc
  have hd := handle_to_auth md5 now h S packet t hdata
  obtain ⟨e1, e2, e3⟩ := authBranch_existing md5 h S packet
    username password stored accId s A' hsplit hdb hhash halloc
  rw [hd]
  exact ⟨e1, e2, e3⟩

def reauthW : ServerState :=
  ⟨[("a", ("H", "1"))], 2, [("1", ⟨"a", none, 1, none⟩)], [("_", lobbyRoom)],
   ⟨{2}, [("1", 1)]⟩⟩

theorem c7_reauth_accepted_amended_witness :
    (handlePacket md5c 0 h0fix reauthW "09a;b").1 = ⟨some "a", some "1"⟩ ∧
    (handlePacket md5c 0 h0fix reauthW "09a;b").2.1
      = {reauthW with slots := ⟨({2} : Finset ℕ).erase 2, [("1", 2)]⟩
                      users := mapInsert "1" ⟨"a", none, 2, none⟩ reauthW.users} := by
  have h := c7_reauth_accepted_amended md5c 0 h0fix reauthW "1" "09a;b"
    "a" "b" "H" "1" 2 ⟨({2} : Finset ℕ).erase 2, [("1", 2)]⟩ ['a', ';', 'b']
    rfl (by decide) rfl rfl rfl rfl (by decide)
  exact ⟨h.1, h.2.1⟩

/-- C9: the `p` round-time query leaves the state untouched and reports
`max(0, round_length - (now - round_start))` to the requester (and relays
it to the room); an unset `round_start` reports the full `round_length`;
the value is clamped at zero and non-increasing in `now` while
`round_start` is unchanged. -/
theorem c9_round_timer :
    ∀ (md5 : String → String) (now : Int) (h : HState) (S : ServerState)
      (acc : String) (u : UserRec) (rn : String) (room : Room),
      h.accountId = some acc → mapLookup acc S.users = some u →
      u.room = some rn → rn ≠ "" → mapLookup rn S.rooms = some room →
      (handlePacket md5 now h S "p").1 = h ∧
      (handlePacket md5 now h S "p").2.1 = S ∧
      (∀ st, room.roundStart = some st → st ≠ 0 →
        (handlePacket md5 now h S "p").2.2
          = mkSelf ("p" ++ toString (roundRemaining room.roundLength st now)
                ++ nulStr)
            :: relayRawToRoom S acc rn
                ("p" ++ toString (roundRemaining room.roundLength st now)) false) ∧
      (room.roundStart = none →
        (handlePacket md5 now h S "p").2.2
          = mkSelf ("p" ++ toString (roundRemaining room.roundLength now now)
                ++ nulStr)
            :: relayRawToRoom S acc rn
                ("p" ++ toString (roundRemaining room.roundLength now now)) false) ∧
      (0 ≤ room.roundLength →
        roundRemaining room.roundLength now now = room.roundLength) ∧
      (∀ len st n1 n2 : Int, n1 ≤ n2 →
        roundRemaining len st n2 ≤ roundRemaining len st n1) ∧
      (∀ len st n : Int, 0 ≤ roundRemaining len st n) := by
  intro md5 now h S acc u rn room hacc hu hur hrn hroom
  have hune : (mapLookup acc S.users).isNone = false := by
    rw [hu]
    rfl
  have hd : handlePacket md5 now h S "p" = (h, S, roundTimeBranch now acc S) := by
    rw [handle_to_authed md5 now h S acc "p" hacc hune (by decide) (by decide)
      (by decide) (by decide)]
    unfold authedDispatch
    rw [if_neg (show ¬ strStarts "03" "p" = true by decide),
      if_neg (show ¬ ("p" : String) = "01" by decide),
      if_neg (show ¬ strStarts "04" "p" = true by decide),
      if_neg (show ¬ strStarts "02" "p" = true by decide),
      if_neg (show ¬ strStarts "9?" "p" = true by decide),
      if_neg (show ¬ (strStarts "1" "p" || strStarts "8" "p"
          || strStarts "4" "p") = true by decide),
      if_neg (show ¬ strStarts "6" "p" = true by decide),
      if_neg (show ¬ strStarts "7" "p" = true by decide),
      if_neg (show ¬ (strStarts "0k" "p" || strStarts "0q" "p") = true by decide),
      if_neg (show ¬ (strStarts "9" "p" && !(strStarts "9?" "p")) = true by decide),
      if_neg (show ¬ strStarts "0d" "p" = true by decide),
      if_pos (show ("p" : String) = "p" from rfl)]
  have hbranch : ∀ start : Int,
      (match room.roundStart with
        | some s => if s = 0 then now else s
        | none => now) = start →
      roundTimeBranch now acc S
        = mkSelf ("p" ++ toString (max 0 (room.roundLength - (now - start)))
              ++ nulStr)
          :: relayRawToRoom S acc rn
              ("p" ++ toString (max 0 (room.roundLength - (now - start)))) false := by
    intro start hstart
    unfold roundTimeBranch
    rw [hu]
    simp only [Option.bind, hur]
    rw [if_neg hrn]
    simp only [hroom]
    rw [hstart]
  refine ⟨by rw [hd], by rw [hd], ?_, ?_, ?_, ?_, ?_⟩
  · intro st hst hst0
    rw [hd]
    simp only []
    rw [hbranch st (by rw [hst]; simp [hst0])]
    rfl
  · intro hst
    rw [hd]
    simp only []
    rw [hbranch now (by rw [hst])]
    rfl
  · intro hlen
    unfold roundRemaining
    omega
  · intro len st n1 n2 h12
    unfold roundRemaining
    exact max_le_max le_rfl (by omega)
  · intro len st n
    unfold roundRemaining
    exact le_max_left 0 _

def S9fix : ServerState :=
  ⟨[("a", ("H", "1")), ("b", ("H", "2"))], 3,
   [("1", ⟨"a", some "A", 1, none⟩), ("2", ⟨"b", some "A", 2, none⟩)],
   [("_", lobbyRoom), ("A", ⟨"A", "FG", ["1", "2"], some 3, 600⟩)], twoSlots⟩

theorem c9_round_timer_witness :
    (handlePacket md5c 10 h0fix S9fix "p").2.2
      = mkSelf ("p" ++ toString (roundRemaining 600 3 10) ++ nulStr)
        :: relayRawToRoom S9fix "1" "A"
            ("p" ++ toString (roundRemaining 600 3 10)) false ∧
    roundRemaining 600 3 10 = 593 := by
  have h := c9_round_timer md5c 10 h0fix S9fix "1" ⟨"a", some "A", 1, none⟩ "A"
    ⟨"A", "FG", ["1", "2"], some 3, 600⟩ rfl rfl rfl (by decide) rfl
  exact ⟨h.2.2.1 3 rfl (by decide), by decide⟩

/-! ### C3: room-membership exclusivity -/

theorem c3step1 :
    (handlePacket md5c 0 h0fix S0fix "02A00A;FG").1 = h0fix ∧
    (handlePacket md5c 0 h0fix S0fix "02A00A;FG").2.1 = SAfix :=
  ⟨rfl, rfl⟩

theorem c3step2 :
    (handlePacket md5c 0 h0fix SAfix "09a;b").1 = h0fix ∧
    (handlePacket md5c 0 h0fix SAfix "09a;b").2.1 = SBfix := by
  have halloc : SAfix.slots.allocate "1"
      = some (2, ⟨((Finset.Icc 1 999).erase 1).erase 2, [("1", 2)]⟩) :=
    allocate_step _ _ 2
      (Finset.mem_erase.2 ⟨by omega, Finset.mem_Icc.2 (by omega)⟩)
      (fun b hb => by
        simp only [SAfix, authedSlots, Finset.mem_erase, Finset.mem_Icc] at hb
        omega)
  have hd : handlePacket md5c 0 h0fix SAfix "09a;b"
      = authBranch md5c h0fix SAfix "09a;b" :=
    handle_to_auth md5c 0 h0fix SAfix "09a;b" _ rfl
  obtain ⟨e1, e2, e3⟩ := authBranch_existing md5c h0fix SAfix "09a;b"
    "a" "b" "H" "1" 2 ⟨((Finset.Icc 1 999).erase 1).erase 2, [("1", 2)]⟩
    rfl rfl rfl halloc
  constructor
  · rw [hd, e1]
    rfl
  · rw [hd, e2]
    rfl

theorem c3step3 :
    (handlePacket md5c 0 h0fix SBfix "02A00B;FG").1 = h0fix ∧
    (handlePacket md5c 0 h0fix SBfix "02A00B;FG").2.1 = SCfix :=
  ⟨rfl, rfl⟩

/-- C3 counterexample: from the authenticated state, the packet run
`Create(A)`, re-authenticate, `Create(B)` leaves account `"1"` a member of
BOTH rooms `"A"` and `"B"` at once: the re-authentication overwrote the
directory entry with `room = None` while `"A"`'s member list still held the
account, so the second create's leave-current-room step removed nothing. -/
theorem c3_two_rooms_counterexample :
    (runPackets md5c 0 h0fix S0fix ["02A00A;FG", "09a;b", "02A00B;FG"]).2.1
      = SCfix ∧
    mapLookup "A" SCfix.rooms = some ⟨"A", "FG", ["1"], some 0, 600⟩ ∧
    mapLookup "B" SCfix.rooms = some ⟨"B", "FG", ["1"], some 0, 600⟩ ∧
    ("A" : String) ≠ "B" ∧
    "1" ∈ (Room.mk "A" "FG" ["1"] (some 0) 600).players ∧
    "1" ∈ (Room.mk "B" "FG" ["1"] (some 0) 600).players := by
  refine ⟨?_, by decide, by decide, by decide, by decide, by decide⟩
  simp only [runPackets, c3step1.1, c3step1.2, c3step2.1, c3step2.2]
  exact c3step3.2

/-- C3 (amended): membership exclusivity holds on well-formed states and is
preserved by every packet other than re-authentication (`09`), provided the
acting session's recorded room name is not the falsy empty string (an
empty-named room, creatable by `02<tag>;<settings>` with an empty name
field, makes `leave_current_room` early-return and breaks exclusivity too):
on a `Wf` state a session is a member of at most one room; after a
successful join the session is a member of exactly the joined room, and
after a successful create of exactly the created room. -/
theorem c3_single_room_amended :
    ∀ (md5 : String → String) (now : Int) (h : HState) (S : ServerState)
      (acc packet : String),
      Wf S →
      (∀ rn rn' room room',
        mapLookup rn S.rooms = some room → acc ∈ room.players →
        mapLookup rn' S.rooms = some room' → acc ∈ room'.players →
        rn = rn') ∧
      (strStarts "09" packet = false →
        (∀ a, h.accountId = some a →
          ((mapLookup a S.users).bind (fun u => u.room)) ≠ some "") →
        Wf (handlePacket md5 now h S packet).2.1) ∧
      ((mapLookup acc S.users).isSome = true →
        ((mapLookup acc S.users).bind (fun u => u.room)) ≠ some "" →
        ∀ room, mapLookup (normalizeRoomName (pyDrop 2 packet))
            (leaveCurrentRoom S acc).1.rooms = some room →
        ∀ rn' room',
          mapLookup rn' (joinBranch now acc h S packet).2.1.rooms = some room' →
          acc ∈ room'.players →
          rn' = normalizeRoomName (pyDrop 2 packet)) ∧
      ((mapLookup acc S.users).isSome = true →
        ((mapLookup acc S.users).bind (fun u => u.room)) ≠ some "" →
        ∀ pr1 pr2 : String × String,
          splitOnce ';' (pyDrop 2 packet) = some pr1 →
          splitOnce ';' (pyDrop 3 (pyDrop 2 packet)) = some pr2 →
        ∀ rn' room',
          mapLookup rn' (createBranch now acc h S packet).2.1.rooms = some room' →
          acc ∈ room'.players →
          rn' = normalizeRoomName pr2.1) := by
  intro md5 now h S acc packet hWf
  refine ⟨?_, ?_, ?_, ?_⟩
  · intro rn rn' room room' hr ha hr' ha'
    have h1 := hWf.2.2.2 (rn, room) (mapLookup_some_mem hr) acc ha
    have h2 := hWf.2.2.2 (rn', room') (mapLookup_some_mem hr') acc ha'
    exact Option.some.inj (h1.symm.trans h2)
  · intro hnotauth hns
    exact handle_wf md5 now h S packet hWf hnotauth hns
  · intro hacc hns room h4 rn' room' hl hm
    have hW2 := join_wf now acc h S packet hWf hacc hns
    have hspec := join_success_spec now acc h S packet hWf hacc hns room h4
    exact wf_member_unique _ hW2 acc _ hspec.1 rn' room' hl hm
  · intro hacc hns pr1 pr2 h4 h5 rn' room' hl hm
    have hW2 := create_wf now acc h S packet hWf hacc hns
    have hspec := create_success_spec now acc h S packet hacc pr1 pr2 h4 h5
    exact wf_member_unique _ hW2 acc _ hspec.1 rn' room' hl hm

theorem c3_single_room_amended_witness :
    Wf S2fix ∧
    mapLookup "_" (leaveCurrentRoom S2fix "1").1.rooms = some lobbyRoom ∧
    mapLookup "_" (joinBranch 0 "1" h0fix S2fix "03_").2.1.rooms
      = some ⟨"_", "", ["1"], none, 600⟩ ∧
    "1" ∈ (Room.mk "_" "" ["1"] none 600).players ∧
    ("_" : String) = normalizeRoomName (pyDrop 2 "03_") := by
  refine ⟨by decide, by decide, by decide, by decide, ?_⟩
  exact (c3_single_room_amended md5c 0 h0fix S2fix "1" "03_" (by decide)).2.2.1
    (by decide) (by decide) lobbyRoom (by decide) "_" ⟨"_", "", ["1"], none, 600⟩
    (by decide) (by decide)

/-! ### C6: empty non-lobby rooms die, the lobby never does -/

def S6fix : ServerState :=
  ⟨[("a", ("H", "1")), ("b", ("H", "2"))], 3,
   [("1", ⟨"a", some "A", 1, none⟩), ("2", ⟨"b", some "_", 2, none⟩)],
   [("_", ⟨"_", "", ["2"], none, 600⟩), ("A", ⟨"A", "FG", ["1"], some 0, 600⟩)],
   twoSlots⟩

/-- C6: when the last member leaves a non-lobby room, the room is deleted
from the directory at once and the updated room list is sent to every
session currently in the lobby; the Inv6 invariant (the lobby entry exists
and every surviving non-lobby room is non-empty) is preserved by every
packet, so the lobby is never deleted.  The `rn ≠ ""` hypothesis loses no
generality: a member is removed from a room only inside
`leave_current_room`, which early-returns on the falsy empty name, so the
member set of a room named `""` can never become empty in the first
place — the emptying event itself forces a non-empty name. -/
theorem c6_empty_room_deleted :
    ∀ (md5 : String → String) (now : Int) (h : HState) (S : ServerState)
      (acc : String) (u : UserRec) (rn : String) (room : Room)
      (packet : String),
      (mapLookup acc S.users = some u → u.room = some rn →
        mapLookup rn S.rooms = some room → rn ≠ "_" → rn ≠ "" →
        room.players.erase acc = [] →
        mapLookup rn (leaveCurrentRoom S acc).1.rooms = none ∧
        ∀ p ∈ (leaveCurrentRoom S acc).1.users, p.2.room = some "_" →
          mkAcct p.1 (buildRoomList (leaveCurrentRoom S acc).1)
            ∈ (leaveCurrentRoom S acc).2) ∧
      (Inv6 S →
        (mapLookup "_" (handlePacket md5 now h S packet).2.1.rooms).isSome ∧
        ∀ p ∈ (handlePacket md5 now h S packet).2.1.rooms, p.1 ≠ "_" →
          p.2.players ≠ []) ∧
      (Inv6 S → (mapLookup "_" (leaveCurrentRoom S acc).1.rooms).isSome) := by
  intro md5 now h S acc u rn room packet
  refine ⟨?_, ?_, ?_⟩
  · intro h1 h2 h3 h4 h6 h5
    exact leave_delete_announce S acc u rn room h1 h2 h3 h4 h5 h6
  · intro hI
    exact handle_inv6 md5 now h S packet hI
  · intro hI
    exact (leave_inv6 S acc hI).1

theorem c6_empty_room_deleted_witness :
    mapLookup "1" S6fix.users = some ⟨"a", some "A", 1, none⟩ ∧
    mapLookup "A" S6fix.rooms = some ⟨"A", "FG", ["1"], some 0, 600⟩ ∧
    Inv6 S6fix ∧
    mapLookup "A" (leaveCurrentRoom S6fix "1").1.rooms = none ∧
    mkAcct "2" (buildRoomList (leaveCurrentRoom S6fix "1").1)
      ∈ (leaveCurrentRoom S6fix "1").2 ∧
    (mapLookup "_" (handlePacket md5c 0 h0fix S6fix "01").2.1.rooms).isSome := by
  have h := c6_empty_room_deleted md5c 0 h0fix S6fix "1"
    ⟨"a", some "A", 1, none⟩ "A" ⟨"A", "FG", ["1"], some 0, 600⟩ "01"
  have h1 := h.1 rfl rfl rfl (by decide) (by decide) (by decide)
  refine ⟨rfl, rfl, by decide, h1.1, ?_, (h.2.1 (by decide)).1⟩
  exact h1.2 ("2", ⟨"b", some "_", 2, none⟩) (by decide) rfl
